import Mathlib

/-
  Shallow embedding of the experience-export core of the ai-assimilation-mcp
  server (TypeScript), covering:
    - path resolution and session-id validation  (src/utils/experience.ts)
    - the stateless status reconstructor         (src/tools/getExportStatus.ts)
    - the batch writer                           (src/tools/exportExperienceConversations.ts)
    - the thoughts writer                        (exportExperienceThoughts tool)
    - session initialization                     (src/tools/exportExperienceInit.ts)
    - the finalizer                              (src/tools/exportExperienceFinalize.ts)
    - the layered validation engine              (src/utils/validation.ts, thoughts-era
                                                  version, and fileOperations.ts)

  A session directory is modelled as an association list from filename to
  file content.  File content is `Option JVal`: `none` stands for bytes that
  do not parse as JSON ("corrupt"), `some v` for a file whose bytes parse to
  the JSON value `v`.  JSON numbers are modelled as integers (the program
  only ever produces and checks integer counts).  Byte-level identity of two
  written files corresponds to equality of the stored `JVal`, because the
  program always writes `JSON.stringify(data, null, 2)`, which is a
  deterministic function of the value.
-/

/-- JSON values, as produced by `JSON.parse`. -/
inductive JVal where
  | jnull
  | jbool (b : Bool)
  | jnum (n : Int)
  | jstr (s : String)
  | jarr (xs : List JVal)
  | jobj (fields : List (String × JVal))

/-! ### String utilities

The TypeScript code manipulates filenames with `startsWith`, `endsWith`,
`includes`, the regular expression `conversations_(\d+)\.json`, default
(code-unit lexicographic) `Array.prototype.sort`, and
`String(n).padStart(3, '0')`.  These are modelled on the character lists
underlying Lean strings.  (All filenames involved are ASCII, where UTF-16
code-unit order and Unicode scalar order agree.) -/

/-- Model of `s.startsWith(p)`. -/
def strStartsWith (s p : String) : Bool := p.data.isPrefixOf s.data

/-- Model of `s.endsWith(p)`. -/
def strEndsWith (s p : String) : Bool := p.data.isSuffixOf s.data

/-- Does the needle occur as a contiguous substring of the haystack? -/
def listContainsSub (needle : List Char) : List Char → Bool
  | [] => needle.isEmpty
  | c :: cs => needle.isPrefixOf (c :: cs) || listContainsSub needle cs

/-- Model of `s.includes(sub)`. -/
def strContains (s sub : String) : Bool := listContainsSub sub.data s.data

/-- Code-unit lexicographic order on strings, the comparison used by the
default JavaScript `Array.prototype.sort()`. -/
def lexLeB : List Char → List Char → Bool
  | [], _ => true
  | _ :: _, [] => false
  | a :: as, b :: bs =>
    if a.toNat < b.toNat then true
    else if b.toNat < a.toNat then false
    else lexLeB as bs

/-- String comparison wrapper for `lexLeB`. -/
def strLe (a b : String) : Bool := lexLeB a.data b.data

/-- Insert a string into a lexicographically sorted list. -/
def insertSorted (x : String) : List String → List String
  | [] => [x]
  | y :: ys => if strLe x y then x :: y :: ys else y :: insertSorted x ys

/-- Model of the default JavaScript `sort()` on an array of strings.  The
default comparator is a total order that is antisymmetric on distinct
strings, so every comparison sort produces this same (unique) sorted
permutation; insertion sort is used as the reference implementation. -/
def sortLex : List String → List String
  | [] => []
  | x :: xs => insertSorted x (sortLex xs)

/-- Is the character an ASCII digit (regex `\d`)? -/
def isDigitChar (c : Char) : Bool := 48 ≤ c.toNat && c.toNat ≤ 57

/-- Split a character list into its maximal leading digit run and the rest. -/
def spanDigits : List Char → List Char × List Char
  | [] => ([], [])
  | c :: cs =>
    if isDigitChar c then
      let p := spanDigits cs
      (c :: p.1, p.2)
    else ([], c :: cs)

/-- Value of a digit string, most significant digit first. -/
def charsToNat (ds : List Char) : Nat :=
  ds.foldl (fun a c => a * 10 + (c.toNat - 48)) 0

/-- Drop the given literal from the front of the input, if it is a prefix. -/
def dropLit : List Char → List Char → Option (List Char)
  | [], rest => some rest
  | _ :: _, [] => none
  | l :: ls, c :: cs => if l == c then dropLit ls cs else none

/-- Try to match the regex `conversations_(\d+)\.json` at the current
position.  Because `.json` begins with a non-digit, the greedy `\d+` never
needs to backtrack: the match succeeds exactly when the maximal digit run
after the literal is nonempty and is immediately followed by `.json`. -/
def matchBatchAt (cs : List Char) : Option Nat :=
  match dropLit "conversations_".data cs with
  | none => none
  | some r1 =>
    let p := spanDigits r1
    if p.1.isEmpty then none
    else
      match dropLit ".json".data p.2 with
      | none => none
      | some _ => some (charsToNat p.1)

/-- Leftmost match of `conversations_(\d+)\.json`, scanning all start
positions like the JavaScript regex engine. -/
def scanBatchNumber : List Char → Option Nat
  | [] => none
  | c :: cs =>
    match matchBatchAt (c :: cs) with
    | some n => some n
    | none => scanBatchNumber cs

/-- Model of `f.match(/conversations_(\d+)\.json/)` followed by
`parseInt(match[1], 10)`; `none` when the regex does not match.  (Numbers
are modelled exactly as naturals; the IEEE-double imprecision of `parseInt`
above 2^53 is outside the scope of this model.) -/
def extractBatchNumber (f : String) : Option Nat := scanBatchNumber f.data

/-- The filename filter used by both the status tool and the finalizer:
`f.startsWith('conversations_') && f.endsWith('.json')`. -/
def isConversationFile (f : String) : Bool :=
  strStartsWith f "conversations_" && strEndsWith f ".json"

/-- Decimal digit character for `n % 10`. -/
def digitChar (n : Nat) : Char := Char.ofNat (48 + n % 10)

/-- Fuel-driven decimal rendering helper. -/
def digitsAux : Nat → Nat → List Char
  | 0, _ => []
  | fuel + 1, n =>
    if n < 10 then [digitChar n]
    else digitsAux fuel (n / 10) ++ [digitChar (n % 10)]

/-- Model of JavaScript `String(n)` for a natural number. -/
def natToChars (n : Nat) : List Char := digitsAux (n + 1) n

/-- Model of `.padStart(3, '0')`. -/
def padStart3 (cs : List Char) : List Char :=
  List.replicate (3 - cs.length) '0' ++ cs

/-- The batch filename computed by the batch writer:
`conversations_${String(batch_number).padStart(3, '0')}.json`. -/
def batchFilename (n : Nat) : String :=
  "conversations_" ++ String.mk (padStart3 (natToChars n)) ++ ".json"

/-! ### Session-directory model -/

/-- One session directory: an association list from filename to parsed
content (`none` = file present but not valid JSON). -/
abbrev Dir := List (String × Option JVal)

/-- Model of `fs.readdir`: the list of names in the directory. -/
def dirNames (d : Dir) : List String := d.map (·.1)

/-- Read a file: `none` if absent, `some none` if present but unparsable,
`some (some v)` if it parses to `v`. -/
def getFile (d : Dir) (f : String) : Option (Option JVal) :=
  (d.find? (fun p => p.1 == f)).map (·.2)

/-- Write (create or overwrite) a file. -/
def setFile (d : Dir) (f : String) (v : Option JVal) : Dir :=
  d.filter (fun p => p.1 != f) ++ [(f, v)]

/-- Model of `deleteFile` (delete if present, no error when absent). -/
def removeFile (d : Dir) (f : String) : Dir :=
  d.filter (fun p => p.1 != f)

/-! ### Path resolver (src/utils/experience.ts) -/

/-- Transliteration of `validateSessionId`: the id is rejected when it is
empty or contains a slash, a backslash, or a parent-directory sequence. -/
def validSessionId (s : String) : Bool :=
  !(s == "" || strContains s "/" || strContains s "\\" || strContains s "..")

/-- Transliteration of `getExperienceDirectoryPath`: pure string
composition of the storage root with the prefixed session id; `none` models
the thrown `SecurityError`.  No filesystem access occurs here. -/
def getExperienceDirectoryPath (baseDir sessionId : String) : Option String :=
  if validSessionId sessionId then
    some (baseDir ++ "/experience_" ++ sessionId)
  else none

example : extractBatchNumber "conversations_001.json" = some 1 := rfl
example : extractBatchNumber "conversations_12.json" = some 12 := rfl
example : extractBatchNumber "conversations_abc.json" = none := rfl
example : batchFilename 7 = "conversations_007.json" := rfl
example : batchFilename 1000 = "conversations_1000.json" := rfl
example : sortLex ["conversations_999.json", "conversations_1000.json"]
    = ["conversations_1000.json", "conversations_999.json"] := rfl
example : validSessionId "../../etc" = false := rfl
example : validSessionId "s1" = true := rfl

/-! ### JSON object access -/

/-- Look up a key of a JSON object; `none` both for a missing key and for a
non-object receiver (in JavaScript both give `undefined` for our purposes;
paths where property access throws are modelled explicitly at use sites). -/
def jGet (v : JVal) (k : String) : Option JVal :=
  match v with
  | .jobj fs => (fs.find? (fun p => p.1 == k)).map (·.2)
  | _ => none

/-! ### Schema layer

`src/types/schemas.ts` (the authoritative in-tree file) defines the AJV
schema for conversation batches, which is transliterated below.  Each
schema is rendered as a function from a JSON value to the list of
violation messages; AJV runs with `allErrors`, so the value is valid
exactly when the list is empty. -/

/-- AJV check for a required property of type `string`. -/
def reqStrErr (v : JVal) (k : String) : List String :=
  match jGet v k with
  | some (.jstr _) => []
  | some _ => [k ++ " must be a string"]
  | none => ["missing required field " ++ k]

/-- AJV check for a required property of type `array` with `string` items. -/
def reqStrArrErr (v : JVal) (k : String) : List String :=
  match jGet v k with
  | some (.jarr xs) =>
    if xs.all (fun x => match x with | .jstr _ => true | _ => false) then []
    else [k ++ " items must be strings"]
  | some _ => [k ++ " must be an array"]
  | none => ["missing required field " ++ k]

/-- AJV check for a required property of type `integer` with `minimum`. -/
def reqMinIntErr (v : JVal) (k : String) (lo : Int) : List String :=
  match jGet v k with
  | some (.jnum n) => if lo ≤ n then [] else [k ++ " is below its minimum"]
  | some _ => [k ++ " must be an integer"]
  | none => ["missing required field " ++ k]

/-- AJV check for an optional nullable property of type `string`. -/
def optStrErr (v : JVal) (k : String) : List String :=
  match jGet v k with
  | none => []
  | some .jnull => []
  | some (.jstr _) => []
  | some _ => [k ++ " must be a string or null"]

/-- AJV check for an optional nullable property of type `integer` with
`minimum`. -/
def optMinIntErr (v : JVal) (k : String) (lo : Int) : List String :=
  match jGet v k with
  | none => []
  | some .jnull => []
  | some (.jnum n) => if lo ≤ n then [] else [k ++ " is below its minimum"]
  | some _ => [k ++ " must be an integer or null"]

/-- AJV check for an optional nullable property of type `object`. -/
def optObjErr (v : JVal) (k : String) : List String :=
  match jGet v k with
  | none => []
  | some .jnull => []
  | some (.jobj _) => []
  | some _ => [k ++ " must be an object or null"]

/-- Checks of the `files` property of the manifest schema: an object with a
`conversations` string array and a `thoughts` string. -/
def filesFieldErrors (v : JVal) : List String :=
  match jGet v "files" with
  | some fo =>
    match fo with
    | .jobj _ => reqStrArrErr fo "conversations" ++ reqStrErr fo "thoughts"
    | _ => ["files must be an object"]
  | none => ["missing required field files"]

/-- Modelled from the spec: the manifest schema of the thoughts-era
architecture (`experienceMetadataSchema`).  The thoughts-era
`src/types/schemas.ts` is not part of the provided sources (only its
pre-thoughts predecessor is); this definition follows the spec's structural
layer (required writer-identity strings, flow/topic string lists, the file
map naming the batch files and the notes file, and the non-negative total),
keeps the optional nullable fields of the in-tree predecessor schema, and
tolerates unknown fields, matching the repository's thoughts-era data-model
test (valid manifest has `files = (conversations, thoughts)`). -/
def experienceMetadataErrors (v : JVal) : List String :=
  match v with
  | .jobj _ =>
    reqStrErr v "mcp_version" ++ reqStrErr v "ai_name" ++ reqStrErr v "ai_context"
      ++ reqStrErr v "experience_summary" ++ reqStrArrErr v "experience_flow"
      ++ filesFieldErrors v ++ reqStrArrErr v "main_topics"
      ++ reqMinIntErr v "total_conversations" 0
      ++ optStrErr v "session_id" ++ optStrErr v "created_at"
      ++ optStrErr v "ai_model" ++ optStrErr v "duration" ++ optStrErr v "platform"
      ++ optObjErr v "custom_metadata"
  | _ => ["manifest must be an object"]

/-- Transliteration of the `batch_info` part of `conversationBatchSchema`
(src/types/schemas.ts): `batch_number` integer at least 1, `count` integer
at least 0, optional nullable `start_index`/`end_index` integers at least
1, and `additionalProperties: false`. -/
def batchInfoErrors (b : JVal) : List String :=
  match b with
  | .jobj fs =>
    reqMinIntErr b "batch_number" 1 ++ reqMinIntErr b "count" 0
      ++ optMinIntErr b "start_index" 1 ++ optMinIntErr b "end_index" 1
      ++ (if fs.all (fun p =>
            p.1 == "batch_number" || p.1 == "count"
              || p.1 == "start_index" || p.1 == "end_index")
          then [] else ["batch_info has additional properties"])
  | _ => ["batch_info must be an object"]

/-- Transliteration of a conversation item of `conversationBatchSchema`:
required `user_input` and `ai_response` strings, optional nullable
`reasoning` string, additional properties allowed. -/
def conversationItemErrors (c : JVal) : List String :=
  match c with
  | .jobj _ => reqStrErr c "user_input" ++ reqStrErr c "ai_response" ++ optStrErr c "reasoning"
  | _ => ["conversation must be an object"]

/-- Transliteration of `conversationBatchSchema` (src/types/schemas.ts):
required `batch_info` and `conversations`, `additionalProperties: false` at
the top level. -/
def conversationBatchErrors (v : JVal) : List String :=
  match v with
  | .jobj fs =>
    (match jGet v "batch_info" with
     | some bi => batchInfoErrors bi
     | none => ["missing required field batch_info"])
      ++ (match jGet v "conversations" with
          | some (.jarr xs) => xs.foldr (fun c acc => conversationItemErrors c ++ acc) []
          | some _ => ["conversations must be an array"]
          | none => ["missing required field conversations"])
      ++ (if fs.all (fun p => p.1 == "batch_info" || p.1 == "conversations")
          then [] else ["batch has additional properties"])
  | _ => ["batch must be an object"]

/-! ### Validation engine (thoughts-era src/utils/validation.ts) -/

/-- Result of validating one value, as in `validation.ts`. -/
structure ValidationResult where
  valid : Bool
  errors : List String
  warnings : List String
deriving DecidableEq, Repr

/-- Transliteration of `validateExperienceMetadata`. -/
def validateExperienceMetadata (v : JVal) : ValidationResult :=
  let es := experienceMetadataErrors v
  ⟨es.isEmpty, es, []⟩

/-- Declared count: `batch.batch_info.count` when it is a number. -/
def batchDeclaredCount (v : JVal) : Option Int :=
  match jGet v "batch_info" with
  | some bi =>
    match jGet bi "count" with
    | some (.jnum c) => some c
    | _ => none
  | none => none

/-- The `conversations` array of a batch value, when it is an array. -/
def batchConversations (v : JVal) : Option (List JVal) :=
  match jGet v "conversations" with
  | some (.jarr xs) => some xs
  | _ => none

/-- The warning text pushed by `validateConversationBatch` on a
declared-versus-actual count mismatch. -/
def countMismatchMsg (declared : Int) (actual : Nat) : String :=
  "Conversation count mismatch: expected " ++ toString declared
    ++ ", got " ++ toString actual

/-- Transliteration of `validateConversationBatch`: AJV schema check, then
(only on schema-valid data) the semantic warning comparing the declared
`batch_info.count` with the actual number of records. -/
def validateConversationBatch (v : JVal) : ValidationResult :=
  let es := conversationBatchErrors v
  if es.isEmpty then
    match batchDeclaredCount v, batchConversations v with
    | some c, some xs =>
      if c = (xs.length : Int) then ⟨true, [], []⟩
      else ⟨true, [], [countMismatchMsg c xs.length]⟩
    | _, _ => ⟨true, [], []⟩
  else ⟨false, es, []⟩

/-- Transliteration of `validateThoughts`: any JSON value except `null` is
accepted (a parsed file can never be `undefined`). -/
def validateThoughts (v : JVal) : ValidationResult :=
  match v with
  | .jnull => ⟨false, ["Thoughts data cannot be null or undefined"], []⟩
  | _ => ⟨true, [], []⟩

/-- Transliteration of `validateFileContent`: dispatch on the filename. -/
def validateFileContent (filename : String) (v : JVal) : ValidationResult :=
  if filename == "manifest.json" then validateExperienceMetadata v
  else if isConversationFile filename then validateConversationBatch v
  else if filename == "thoughts.json" then validateThoughts v
  else ⟨false, ["Unknown file type: " ++ filename], []⟩

example : (validateConversationBatch (.jobj
    [("batch_info", .jobj [("batch_number", .jnum 1), ("count", .jnum 2)]),
     ("conversations", .jarr [.jobj [("user_input", .jstr "q"), ("ai_response", .jstr "a")]])]))
  = ⟨true, [], [countMismatchMsg 2 1]⟩ := rfl

/-! ### Directory-level validation (validateExperienceDirectory) -/

/-- Result of validating a whole directory, as in `validation.ts`. -/
structure DirectoryValidationResult where
  valid : Bool
  manifest_valid : Bool
  semantic_valid : Bool
  file_validations : List (String × ValidationResult)
  missing_files : List String
  errors : List String
  warnings : List String
deriving DecidableEq, Repr

/-- Extract an all-strings JSON array into the list of its strings. -/
def extractStrings : List JVal → Option (List String)
  | [] => some []
  | .jstr s :: xs => (extractStrings xs).map (fun r => s :: r)
  | _ :: _ => none

/-- The batch-file list named by the manifest,
`manifest.files.conversations`, required to be an array of strings;
`none` models the paths on which the JavaScript spread or `in` test would
throw or leave the string domain (never the case for a schema-valid
manifest). -/
def manifestConvNames (m : JVal) : Option (List String) :=
  match jGet m "files" with
  | some fo =>
    match jGet fo "conversations" with
    | some (.jarr xs) => extractStrings xs
    | _ => none
  | none => none

/-- The notes-file name named by the manifest, `manifest.files.thoughts`,
required to be a string (always the case for a schema-valid manifest). -/
def manifestThoughtsName (m : JVal) : Option String :=
  match jGet m "files" with
  | some fo =>
    match jGet fo "thoughts" with
    | some (.jstr s) => some s
    | _ => none
  | none => none

/-- The declared total, `manifest.total_conversations`, when a number. -/
def manifestTotal (m : JVal) : Option Int :=
  match jGet m "total_conversations" with
  | some (.jnum t) => some t
  | _ => none

/-- JavaScript evaluation of `(content as ConversationBatch).conversations.length`
on an arbitrary parsed value: `none` models a thrown TypeError (property
access on a non-object, or `.length` of `undefined`/`null`); `some none`
models the `undefined` length of a number/boolean/object, which poisons the
running total to NaN; `some (some k)` a numeric length (arrays, and also
strings, whose `.length` is their character count). -/
def jsConvLength : JVal → Option (Option Int)
  | .jobj fs =>
    match ((fs.find? (fun p => p.1 == "conversations")).map (·.2) : Option JVal) with
    | none => none
    | some .jnull => none
    | some (.jarr xs) => some (some (xs.length : Int))
    | some (.jstr s) => some (some (s.length : Int))
    | some (.jnum _) => some none
    | some (.jbool _) => some none
    | some (.jobj _) => some none
  | _ => none

/-- One step of the cross-file running total.  `none` = TypeError thrown;
`some none` = the total has become NaN; files the manifest lists but that
were not supplied are skipped, contributing nothing. -/
def crossStep (files : List (String × JVal)) (acc : Option (Option Int)) (f : String) :
    Option (Option Int) :=
  match acc with
  | none => none
  | some a =>
    match (files.find? (fun p => p.1 == f)).map (·.2) with
    | none => some a
    | some content =>
      match jsConvLength content with
      | none => none
      | some none => some none
      | some (some k) =>
        match a with
        | none => some none
        | some t => some (some (t + k))

/-- The cross-file total of `validateExperienceDirectory`: sum of actual
record counts over the batch files the manifest names, in order. -/
def crossFileTotal (convNames : List String) (files : List (String × JVal)) :
    Option (Option Int) :=
  convNames.foldl (crossStep files) (some (some 0))

/-- The warning text of the cross-file total check; a NaN total renders as
the string NaN, exactly as the template literal does. -/
def crossMismatchMsg (declared : Int) (found : Option Int) : String :=
  "Total conversation count mismatch: manifest says " ++ toString declared
    ++ ", found " ++ (match found with | some k => toString k | none => "NaN")

/-- The cross-file layer, run only when the manifest passed its schema
check: `none` models the thrown TypeError that aborts the whole validation
call. -/
def crossFileWarnings (m : JVal) (convNames : List String)
    (files : List (String × JVal)) : Option (List String) :=
  match crossFileTotal convNames files with
  | none => none
  | some t =>
    match manifestTotal m with
    | none => none
    | some declared =>
      some (match t with
        | some k => if k = declared then [] else [crossMismatchMsg declared (some k)]
        | none => [crossMismatchMsg declared none])

/-- Transliteration of `validateExperienceDirectory` (thoughts-era
`validation.ts`): the sequential `result.valid = false` assignments of the
source are rendered as the conjunction of the three layer outcomes; the
expected files are the manifest's batch files plus its thoughts entry;
every supplied file is validated by filename dispatch; the cross-file
check runs only under a schema-valid manifest.  `none` models the paths on
which the JavaScript code throws (see `manifestConvNames`,
`jsConvLength`). -/
def validateExperienceDirectory (m : JVal) (files : List (String × JVal)) :
    Option DirectoryValidationResult :=
  match manifestConvNames m, manifestThoughtsName m with
  | some convNames, some thoughtsName =>
    let manifestValidation := validateExperienceMetadata m
    let expectedFiles := convNames ++ [thoughtsName]
    let missing := expectedFiles.filter (fun f => !(files.any (fun p => p.1 == f)))
    let fileValidations := files.map (fun p => (p.1, validateFileContent p.1 p.2))
    let filesOk := fileValidations.all (fun e => e.2.valid)
    match (if manifestValidation.valid then crossFileWarnings m convNames files
           else some []) with
    | none => none
    | some crossWs =>
      some
        { valid := manifestValidation.valid && missing.isEmpty && filesOk
          manifest_valid := manifestValidation.valid
          semantic_valid := filesOk
          file_validations := fileValidations
          missing_files := missing
          errors := manifestValidation.errors
          warnings := manifestValidation.warnings
            ++ fileValidations.foldr (fun e acc => e.2.warnings ++ acc) []
            ++ crossWs }
  | _, _ => none

/-! ### The validate pipeline (fileOperations.ts, thoughts era)

`validateExperienceDirectoryFiles` reads the manifest with schema
validation, then attempts to read every file the manifest lists; the loop
guards each insertion with `if (fileResult.success && fileResult.data)`,
so a file that is absent, present but unparsable, or parsing to a falsy
JSON value (`null`, `false`, `0`, the empty string) is not added to the
supplied map; the map is then passed to
`validateExperienceDirectory`.  The in-tree `src/utils/fileOperations.ts`
predecessor shows this exact loop and guard; its thoughts-era revision
(absent from the sources) iterates the manifest's conversations plus
thoughts, the same list `validateExperienceDirectory` itself expects. -/

/-- JavaScript truthiness of a parsed JSON value, as tested by the loop
guard `fileResult.data`: `null`, `false`, the number `0` and the empty
string are falsy; every array and object is truthy. -/
def jTruthy : JVal → Bool
  | .jnull => false
  | .jbool b => b
  | .jnum n => n != 0
  | .jstr str => str != ""
  | .jarr _ => true
  | .jobj _ => true

/-- JavaScript object insert `files[filename] = data`: replaces the value
of an existing key in place, otherwise appends. -/
def insertFileEntry (acc : List (String × JVal)) (f : String) (v : JVal) :
    List (String × JVal) :=
  if acc.any (fun p => p.1 == f) then
    acc.map (fun p => if p.1 == f then (f, v) else p)
  else acc ++ [(f, v)]

/-- The file-reading loop of `validateExperienceDirectoryFiles`: each
expected file is read without per-file validation, and only a file that
exists, parses, and parses to a truthy value passes the loop's
`fileResult.success && fileResult.data` guard and is added. -/
def collectExpectedFiles (d : Dir) (expected : List String) :
    List (String × JVal) :=
  expected.foldl
    (fun acc f =>
      match getFile d f with
      | some (some v) => if jTruthy v then insertFileEntry acc f v else acc
      | _ => acc) []

/-- Transliteration of `validateExperienceDirectoryFiles` on a session
directory state: read the manifest with schema validation (failure is the
tool-level error path, modelled as `none`), read the expected files, and
run the directory validation. -/
def validateExperienceDirectoryFiles (st : Option Dir) :
    Option DirectoryValidationResult :=
  match st with
  | none => none
  | some d =>
    match getFile d "manifest.json" with
    | some (some m) =>
      if (experienceMetadataErrors m).isEmpty then
        match manifestConvNames m, manifestThoughtsName m with
        | some convNames, some thoughtsName =>
          validateExperienceDirectory m
            (collectExpectedFiles d (convNames ++ [thoughtsName]))
        | _, _ => none
      else none
    | _ => none

/-! ### Session status reconstructor (src/tools/getExportStatus.ts) -/

/-- The four lifecycle states reported by the status tool. -/
inductive ExperienceStatus where
  | not_found
  | initializing
  | in_progress
  | completed
deriving DecidableEq, Repr

/-- The status tool's response.  `error = true` models the catch path of
the tool, whose JSON response carries only a status and an error message;
the numeric fields of an errored response are not meaningful. -/
structure ExportStatusResult where
  status : ExperienceStatus
  next_batch_number : Int
  created_files : List String
  error : Bool
deriving DecidableEq, Repr

/-- Transliteration of the body of `getExportStatusTool.execute` after path
resolution: absent directory reports `not_found`; a directory containing
`manifest.json` reports `completed` with the sentinel -1; otherwise the
batch numbers embedded in the conversation filenames are parsed (a
non-matching name contributing 0 through the `match ? parseInt : 0`
fallback), the next batch number is `Math.max(0, ...numbers) + 1` when any
conversation file exists and 1 otherwise, and the state is `initializing`
exactly when the listing is empty. -/
def getExportStatus (st : Option Dir) : ExportStatusResult :=
  match st with
  | none => ⟨.not_found, 1, [], false⟩
  | some d =>
    let files := dirNames d
    if files.contains "manifest.json" then ⟨.completed, -1, files, false⟩
    else
      let conversationFiles := files.filter isConversationFile
      let nextBatchNumber : Int :=
        if conversationFiles.isEmpty then 1
        else ((conversationFiles.map (fun f => (extractBatchNumber f).getD 0)).foldl max 0 : Nat) + 1
      ⟨if files.isEmpty then .initializing else .in_progress, nextBatchNumber, files, false⟩

/-- The status tool with its input validation: an empty id fails the zod
`min(1)` check and an id with path characters makes `getExperienceDirectoryPath`
throw `SecurityError`; both are caught and reported as an errored
`not_found` response.  The status tool never writes to the filesystem. -/
def getExportStatusOp (sessionId : String) (st : Option Dir) : ExportStatusResult :=
  if validSessionId sessionId then getExportStatus st
  else ⟨.not_found, 1, [], true⟩

/-- The status derivation as worded by the specification, for comparison
with the implementation: if `manifest.json` is among the entries the state
is completed with sentinel next batch -1; otherwise next batch is (maximum
batch number parsed from filenames matching the batch pattern, or 0 if
none) + 1, the state being initializing for an empty listing and
in-progress otherwise; a non-existent directory is not-found. -/
def statusFromSpec (st : Option Dir) : ExportStatusResult :=
  match st with
  | none => ⟨.not_found, 1, [], false⟩
  | some d =>
    let files := dirNames d
    if files.contains "manifest.json" then ⟨.completed, -1, files, false⟩
    else
      let parsed := files.filterMap
        (fun f => if isConversationFile f then extractBatchNumber f else none)
      ⟨if files.isEmpty then .initializing else .in_progress,
       ((parsed.foldl max 0 : Nat) : Int) + 1, files, false⟩

/-! ### Session initialization (src/tools/exportExperienceInit.ts) -/

/-- The zod-validated `summary` argument of the init tool (the fields the
finalizer later copies into the manifest). -/
structure ExperienceSummaryInput where
  ai_name : String
  ai_context : String
  experience_summary : String
  experience_flow : List String
  main_topics : List String

/-- JSON rendering of the summary input, as stored inside `summary.json`. -/
def summaryJson (s : ExperienceSummaryInput) : JVal :=
  .jobj [("ai_name", .jstr s.ai_name), ("ai_context", .jstr s.ai_context),
         ("experience_summary", .jstr s.experience_summary),
         ("experience_flow", .jarr (s.experience_flow.map .jstr)),
         ("main_topics", .jarr (s.main_topics.map .jstr))]

/-- The init tool's response (success flag and the session id in use). -/
structure InitResult where
  success : Bool
  session_id : String
deriving DecidableEq, Repr

/-- Transliteration of `exportExperienceInitTool.execute`.  The
`session_id` input is optional and an empty string is falsy, so
`validatedInput.session_id || uuidv4()` replaces both an absent and an
empty id by a generated one (`genId` stands for the `uuidv4()` draw,
supplied as a parameter to keep the model deterministic).  The resolved id
is then validated; on success the directory is created if absent and the
staging record `summary.json` is written (without schema validation),
holding the summary, the caller metadata, the session id and the creation
timestamp. -/
def exportExperienceInit (genId : String) (inputId : String)
    (summary : ExperienceSummaryInput) (metadata : List (String × JVal))
    (createdAt : String) (st : Option Dir) : InitResult × Option Dir :=
  let sessionId := if inputId == "" then genId else inputId
  if validSessionId sessionId then
    let d := st.getD []
    (⟨true, sessionId⟩,
     some (setFile d "summary.json" (some (.jobj
       [("summary", summaryJson summary), ("metadata", .jobj metadata),
        ("session_id", .jstr sessionId), ("created_at", .jstr createdAt)]))))
  else (⟨false, ""⟩, st)

/-! ### Batch writer (src/tools/exportExperienceConversations.ts) -/

/-- One zod-validated conversation record (the optional `confidence`,
`context` and `internal_state` pass-through fields do not interact with
any behaviour in scope and are omitted from the model). -/
structure Conversation where
  timestamp : String
  user_input : String
  ai_response : String
  reasoning : Option String

/-- Render an optional JSON field: an `undefined` value is dropped by
`JSON.stringify`. -/
def optField (k : String) (v : Option JVal) : List (String × JVal) :=
  match v with
  | some x => [(k, x)]
  | none => []

/-- JSON rendering of one conversation record. -/
def conversationJson (c : Conversation) : JVal :=
  .jobj ([("timestamp", .jstr c.timestamp), ("user_input", .jstr c.user_input),
          ("ai_response", .jstr c.ai_response)]
         ++ optField "reasoning" (c.reasoning.map .jstr))

/-- The configured batch size, `config.storage.conversationBatchSize`
(default configuration). -/
def conversationBatchSize : Nat := 50

/-- The batch object assembled by the tool: `batch_info` with the batch
number, the actual record count and the derived start/end indices, plus
the records themselves. -/
def mkConversationBatchJson (batchNumber : Nat) (convs : List Conversation) : JVal :=
  .jobj [("batch_info", .jobj
            [("batch_number", .jnum batchNumber),
             ("count", .jnum convs.length),
             ("start_index", .jnum ((batchNumber - 1) * conversationBatchSize + 1)),
             ("end_index", .jnum ((batchNumber - 1) * conversationBatchSize + convs.length))]),
         ("conversations", .jarr (convs.map conversationJson))]

/-- Transliteration of `exportExperienceConversationsTool.execute`: input
validation (zod batch number at least 1, session id checks) precedes any
filesystem access; `writeJsonFile` then creates the directory if absent,
validates the batch against the conversation schema, and only writes the
file when the schema check passes (a schema failure reports an error but
the directory has already been created). -/
def exportExperienceConversations (sessionId : String) (batchNumber : Nat)
    (convs : List Conversation) (st : Option Dir) : Bool × Option Dir :=
  if batchNumber < 1 || !validSessionId sessionId then (false, st)
  else
    let d := st.getD []
    let batch := mkConversationBatchJson batchNumber convs
    if (validateConversationBatch batch).valid then
      (true, some (setFile d (batchFilename batchNumber) (some batch)))
    else (false, some d)

/-! ### Thoughts writer (exportExperienceThoughts tool) -/

/-- Transliteration of `exportExperienceThoughtsTool.execute`: the zod
schema requires an object, which is written to `thoughts.json` without
schema validation. -/
def exportExperienceThoughts (sessionId : String)
    (thoughts : List (String × JVal)) (st : Option Dir) : Bool × Option Dir :=
  if validSessionId sessionId then
    (true, some (setFile (st.getD []) "thoughts.json" (some (.jobj thoughts))))
  else (false, st)

/-! ### Finalizer (src/tools/exportExperienceFinalize.ts) -/

/-- The server version constant written into the manifest,
`config.server.version`. -/
def mcpVersion : String := "1.0.0"

/-- The contribution of one directory entry to the finalizer's running
total: `readConversationBatch` (a validating read) succeeds only for a
file that exists, parses, and passes the conversation schema, in which
case its actual record count is added; any other batch file silently
contributes nothing. -/
def finalizeBatchContribution (d : Dir) (f : String) : Nat :=
  match getFile d f with
  | some (some v) =>
    if (conversationBatchErrors v).isEmpty then ((batchConversations v).getD []).length
    else 0
  | _ => 0

/-- The batch-file list scanned by the finalizer: directory entries
matching the filename filter, sorted by the default (lexicographic)
JavaScript sort. -/
def finalizeConversationFiles (d : Dir) : List String :=
  sortLex ((dirNames d).filter isConversationFile)

/-- The finalizer's total over its batch-file list. -/
def finalizeTotal (d : Dir) : Nat :=
  ((finalizeConversationFiles d).map (finalizeBatchContribution d)).sum

/-- The manifest assembled by the finalizer from the staging record `s`
(whose `summary` sub-object is `s2`), the scanned batch files, the
thoughts presence flag and the computed total.  A summary field that is
absent yields `undefined`, which `JSON.stringify` drops, so the
corresponding key is omitted. -/
def finalizeManifest (sessionId : String) (s s2 : JVal) (d : Dir) : JVal :=
  .jobj ([("mcp_version", .jstr mcpVersion)]
    ++ optField "ai_name" (jGet s2 "ai_name")
    ++ optField "ai_context" (jGet s2 "ai_context")
    ++ optField "experience_summary" (jGet s2 "experience_summary")
    ++ optField "experience_flow" (jGet s2 "experience_flow")
    ++ optField "main_topics" (jGet s2 "main_topics")
    ++ [("files", .jobj
          [("conversations", .jarr ((finalizeConversationFiles d).map .jstr)),
           ("thoughts", .jstr (if (dirNames d).contains "thoughts.json"
                               then "thoughts.json" else ""))]),
        ("total_conversations", .jnum (finalizeTotal d)),
        ("session_id", .jstr sessionId)]
    ++ optField "created_at" (jGet s "created_at")
    ++ optField "custom_metadata" (jGet s "metadata"))

/-- Is the JSON value `null`? -/
def jIsNull : JVal → Bool
  | .jnull => true
  | _ => false

/-- Is the JSON value an object? -/
def jIsObj : JVal → Bool
  | .jobj _ => true
  | _ => false

/-- The body of `exportExperienceFinalizeTool.execute` on an existing
directory.  The staging record `summary.json` is read without schema
validation, and a missing or unparsable staging record, or one on which
the later property accesses throw (a non-object record, or a `summary`
member that is absent or `null`), aborts with an error before any write;
the directory is scanned, the total computed, the manifest assembled and
written through the schema-validating `writeExperienceMetadata` (a schema
failure aborts before the write); finally the staging record is deleted.
The first component of the result is the success flag of the tool's
response. -/
def finalizeDir (sessionId : String) (d : Dir) : Bool × Option Dir :=
  match getFile d "summary.json" with
  | some (some s) =>
    if jIsObj s then
      match jGet s "summary" with
      | none => (false, some d)
      | some s2 =>
        if jIsNull s2 then (false, some d)
        else
          let manifest := finalizeManifest sessionId s s2 d
          if (experienceMetadataErrors manifest).isEmpty then
            (true, some (removeFile (setFile d "manifest.json" (some manifest)) "summary.json"))
          else (false, some d)
    else (false, some d)
  | _ => (false, some d)

/-- Transliteration of `exportExperienceFinalizeTool.execute`: input
validation precedes everything (an invalid session id aborts before any
filesystem access), then the work of `finalizeDir` runs on the session
directory; a non-existent directory fails at the staging-record read. -/
def exportExperienceFinalize (sessionId : String) (st : Option Dir) :
    Bool × Option Dir :=
  if !validSessionId sessionId then (false, st)
  else
    match st with
    | none => (false, st)
    | some d => finalizeDir sessionId d


/-! ### Basic lemmas about the directory model -/

theorem find?_key_append (l₁ l₂ : List (String × Option JVal)) (k : String) :
    (l₁ ++ l₂).find? (fun p => p.1 == k)
      = ((l₁.find? (fun p => p.1 == k)).or (l₂.find? (fun p => p.1 == k))) :=
  List.find?_append

theorem find?_key_filter_ne_self (d : Dir) (f : String) :
    (d.filter (fun p => p.1 != f)).find? (fun p => p.1 == f) = none := by
  induction d with
  | nil => rfl
  | cons p d ih =>
    by_cases h : p.1 = f
    · simp only [List.filter_cons, h, bne_self_eq_false, if_false, Bool.false_eq_true]
      exact ih
    · simp only [List.filter_cons, bne_iff_ne, ne_eq, h, not_false_eq_true, if_true]
      rw [List.find?_cons_of_neg _ (by simp [beq_eq_false_iff_ne.mpr h]), ih]

theorem find?_key_filter_ne (d : Dir) (f g : String) (h : g ≠ f) :
    (d.filter (fun p => p.1 != f)).find? (fun p => p.1 == g)
      = d.find? (fun p => p.1 == g) := by
  induction d with
  | nil => rfl
  | cons p d ih =>
    by_cases hp : p.1 = f
    · have hb : (p.1 != f) = false := by simp [bne_iff_ne, hp]
      have hpg : (p.1 == g) = false :=
        beq_eq_false_iff_ne.mpr (fun e => h (e.symm.trans hp))
      simp only [List.filter_cons, hb, if_false, Bool.false_eq_true]
      rw [ih, List.find?_cons_of_neg _ (by simp [hpg])]
    · have hb : (p.1 != f) = true := by simp [bne_iff_ne, hp]
      by_cases hg : p.1 = g
      · have hpg : (p.1 == g) = true := beq_iff_eq.mpr hg
        simp only [List.filter_cons, hb, if_true]
        have h1 : List.find? (fun q => q.1 == g) (p :: List.filter (fun q => q.1 != f) d)
            = some p := List.find?_cons_of_pos _ hpg
        have h2 : List.find? (fun q => q.1 == g) (p :: d) = some p :=
          List.find?_cons_of_pos _ hpg
        rw [h1, h2]
      · have hpg : (p.1 == g) = false := beq_eq_false_iff_ne.mpr hg
        simp only [List.filter_cons, hb, if_true]
        rw [List.find?_cons_of_neg _ (by simp [hpg]),
          List.find?_cons_of_neg _ (by simp [hpg]), ih]

theorem getFile_setFile_self (d : Dir) (f : String) (v : Option JVal) :
    getFile (setFile d f v) f = some v := by
  simp [getFile, setFile, find?_key_append, find?_key_filter_ne_self, List.find?]

theorem getFile_setFile_ne (d : Dir) (f g : String) (v : Option JVal) (h : g ≠ f) :
    getFile (setFile d f v) g = getFile d g := by
  unfold getFile setFile
  rw [find?_key_append, find?_key_filter_ne d f g h]
  have hfv : ([(f, v)].find? (fun p => p.1 == g)) = none := by
    simp [List.find?, beq_eq_false_iff_ne.mpr (fun e : f = g => h e.symm)]
  rw [hfv, Option.or_none]

theorem getFile_removeFile_self (d : Dir) (f : String) :
    getFile (removeFile d f) f = none := by
  simp [getFile, removeFile, find?_key_filter_ne_self]

theorem getFile_removeFile_ne (d : Dir) (f g : String) (h : g ≠ f) :
    getFile (removeFile d f) g = getFile d g := by
  simp [getFile, removeFile, find?_key_filter_ne d f g h]

theorem dirNames_setFile (d : Dir) (f : String) (v : Option JVal) :
    dirNames (setFile d f v) = (dirNames d).filter (fun x => x != f) ++ [f] := by
  induction d with
  | nil => rfl
  | cons p d ih =>
    by_cases h : p.1 = f
    · simpa [setFile, dirNames, List.filter_cons, h] using ih
    · simpa [setFile, dirNames, List.filter_cons, bne_iff_ne, h] using ih

theorem dirNames_removeFile (d : Dir) (f : String) :
    dirNames (removeFile d f) = (dirNames d).filter (fun x => x != f) := by
  induction d with
  | nil => rfl
  | cons p d ih =>
    by_cases h : p.1 = f
    · simpa [removeFile, dirNames, List.filter_cons, h] using ih
    · simpa [removeFile, dirNames, List.filter_cons, bne_iff_ne, h] using ih

theorem mem_dirNames_of_getFile (d : Dir) (f : String) (c : Option JVal)
    (h : getFile d f = some c) : f ∈ dirNames d := by
  induction d with
  | nil => simp [getFile] at h
  | cons p d ih =>
    by_cases hp : p.1 = f
    · simp [dirNames, hp]
    · simp only [getFile, List.find?_cons, beq_eq_false_iff_ne.mpr hp] at h
      exact List.mem_cons_of_mem _ (ih (by simpa [getFile] using h))

/-- Filtering away a name that the predicate rejects anyway does not change
a filtered list. -/
theorem filter_filter_ne_of_false (p : String → Bool) (f : String)
    (hp : p f = false) (l : List String) :
    (l.filter (fun x => x != f)).filter p = l.filter p := by
  induction l with
  | nil => rfl
  | cons a l ih =>
    by_cases h : a = f
    · subst h
      simp [List.filter_cons, hp, ih]
    · simp [List.filter_cons, bne_iff_ne, h, ih]


/-! ### Lemmas about the lexicographic sort -/

theorem lexLeB_total (a b : List Char) : lexLeB a b = true ∨ lexLeB b a = true := by
  induction a generalizing b with
  | nil => left; rfl
  | cons x xs ih =>
    cases b with
    | nil => right; rfl
    | cons y ys =>
      by_cases hxy : x.toNat < y.toNat
      · left; simp [lexLeB, hxy]
      · by_cases hyx : y.toNat < x.toNat
        · right; simp [lexLeB, hyx, Nat.lt_asymm hyx]
        · rcases ih ys with h | h
          · left; simp [lexLeB, hxy, hyx, h]
          · right; simp [lexLeB, hxy, hyx, h]

theorem lexLeB_trans (a b c : List Char) (hab : lexLeB a b = true)
    (hbc : lexLeB b c = true) : lexLeB a c = true := by
  induction a generalizing b c with
  | nil => rfl
  | cons x xs ih =>
    cases b with
    | nil => simp [lexLeB] at hab
    | cons y ys =>
      cases c with
      | nil => simp [lexLeB] at hbc
      | cons z zs =>
        simp only [lexLeB] at hab hbc ⊢
        by_cases hxy : x.toNat < y.toNat
        · by_cases hyz : y.toNat < z.toNat
          · rw [if_pos (Nat.lt_trans hxy hyz)]
          · by_cases hzy : z.toNat < y.toNat
            · rw [if_neg hyz, if_pos hzy] at hbc
              exact absurd hbc (by simp)
            · have hyz2 : y.toNat = z.toNat :=
                Nat.le_antisymm (Nat.le_of_not_lt hzy) (Nat.le_of_not_lt hyz)
              rw [if_pos (hyz2 ▸ hxy)]
        · by_cases hyx : y.toNat < x.toNat
          · rw [if_neg hxy, if_pos hyx] at hab
            exact absurd hab (by simp)
          · have hxy2 : x.toNat = y.toNat :=
              Nat.le_antisymm (Nat.le_of_not_lt hyx) (Nat.le_of_not_lt hxy)
            rw [if_neg hxy, if_neg hyx] at hab
            by_cases hyz : y.toNat < z.toNat
            · rw [if_pos (by omega : x.toNat < z.toNat)]
            · by_cases hzy : z.toNat < y.toNat
              · rw [if_neg hyz, if_pos hzy] at hbc
                exact absurd hbc (by simp)
              · rw [if_neg hyz, if_neg hzy] at hbc
                rw [if_neg (by omega : ¬x.toNat < z.toNat),
                  if_neg (by omega : ¬z.toNat < x.toNat)]
                exact ih ys zs hab hbc

theorem strLe_total (a b : String) : strLe a b = true ∨ strLe b a = true :=
  lexLeB_total a.data b.data

theorem strLe_trans (a b c : String) (hab : strLe a b = true) (hbc : strLe b c = true) :
    strLe a c = true :=
  lexLeB_trans a.data b.data c.data hab hbc

theorem mem_insertSorted (x y : String) (l : List String) :
    y ∈ insertSorted x l ↔ y = x ∨ y ∈ l := by
  induction l with
  | nil => simp [insertSorted]
  | cons a l ih =>
    by_cases h : strLe x a = true
    · simp [insertSorted, h]
    · simp only [insertSorted, h, if_false, Bool.false_eq_true, List.mem_cons, ih]
      tauto

theorem insertSorted_perm (x : String) (l : List String) :
    (insertSorted x l).Perm (x :: l) := by
  induction l with
  | nil => rfl
  | cons a l ih =>
    by_cases h : strLe x a = true
    · simp [insertSorted, h]
    · simp only [insertSorted, h, if_false, Bool.false_eq_true]
      exact (ih.cons a).trans (List.Perm.swap x a l)

theorem sortLex_perm (l : List String) : (sortLex l).Perm l := by
  induction l with
  | nil => rfl
  | cons a l ih => exact (insertSorted_perm a (sortLex l)).trans (ih.cons a)

theorem pairwise_insertSorted (x : String) (l : List String)
    (h : l.Pairwise (fun a b => strLe a b = true)) :
    (insertSorted x l).Pairwise (fun a b => strLe a b = true) := by
  induction l with
  | nil => simp [insertSorted]
  | cons a l ih =>
    rcases List.pairwise_cons.mp h with ⟨ha, hl⟩
    by_cases hxa : strLe x a = true
    · simp only [insertSorted, hxa, if_true]
      refine List.pairwise_cons.mpr ⟨?_, h⟩
      intro b hb
      rcases List.mem_cons.mp hb with rfl | hb
      · exact hxa
      · exact strLe_trans x a b hxa (ha b hb)
    · have hax : strLe a x = true := (strLe_total x a).resolve_left hxa
      simp only [insertSorted, hxa, if_false, Bool.false_eq_true]
      refine List.pairwise_cons.mpr ⟨?_, ih hl⟩
      intro b hb
      rcases (mem_insertSorted x b l).mp hb with rfl | hb
      · exact hax
      · exact ha b hb

theorem sortLex_pairwise (l : List String) :
    (sortLex l).Pairwise (fun a b => strLe a b = true) := by
  induction l with
  | nil => simp [sortLex]
  | cons a l ih => exact pairwise_insertSorted a (sortLex l) ih

/-! ### C1: status derivation -/

theorem foldl_max_map_getD (l : List (Option Nat)) (a : Nat) :
    (l.map (fun o => o.getD 0)).foldl max a = (l.filterMap id).foldl max a := by
  induction l generalizing a with
  | nil => rfl
  | cons o l ih =>
    cases o with
    | none => simpa [List.foldl, Nat.max_zero] using ih a
    | some n => simp [List.foldl, ih]

theorem nextBatch_code_eq_spec (files : List String) :
    (if (files.filter isConversationFile).isEmpty then (1 : Int)
     else (((files.filter isConversationFile).map
         (fun f => (extractBatchNumber f).getD 0)).foldl max 0 : Nat) + 1)
    = ((files.filterMap
         (fun f => if isConversationFile f then extractBatchNumber f else none)).foldl
           max 0 : Nat) + 1 := by
  rw [← List.filterMap_filter]
  by_cases he : (files.filter isConversationFile).isEmpty = true
  · have hnil : files.filter isConversationFile = [] := by
      simpa [List.isEmpty_iff] using he
    simp [he, hnil]
  · simp only [he, if_false, Bool.false_eq_true]
    have h1 : (files.filter isConversationFile).map (fun f => (extractBatchNumber f).getD 0)
        = ((files.filter isConversationFile).map extractBatchNumber).map
            (fun o => o.getD 0) := by
      simp [List.map_map]
    rw [h1, foldl_max_map_getD, List.filterMap_map]
    rfl

/-- C1: for every session directory state, the status operation derives the
state purely from the directory listing exactly as specified: a manifest
entry gives the completed state with sentinel next batch -1; otherwise the
next batch number is (maximum batch number parsed from the filenames
matching the batch pattern, or 0 if none) + 1, the state being
initializing for an empty listing and in-progress otherwise; a
non-existent directory gives not-found. -/
theorem C1_status_reconstruction_matches_spec (st : Option Dir) :
    getExportStatus st = statusFromSpec st := by
  cases st with
  | none => rfl
  | some d =>
    unfold getExportStatus statusFromSpec
    cases hm : (dirNames d).contains "manifest.json" with
    | true => simp only [hm, if_true]
    | false =>
      simp only [hm, Bool.false_eq_true, if_false]
      rw [ExportStatusResult.mk.injEq]
      refine ⟨rfl, ?_, rfl, rfl⟩
      exact nextBatch_code_eq_spec (dirNames d)

/-! ### C8: status immediately after init -/

/-- C8 counterexample: status immediately after a fresh init is
in-progress, not initializing: init writes the staging record
`summary.json` into the new directory, so the listing is nonempty.  The
claim that a freshly-created-then-untouched directory reports
initializing is therefore false on the code. -/
theorem C8_counterexample :
    (getExportStatus (exportExperienceInit "gen-id" "s1"
        ⟨"A", "ctx", "sum", [], []⟩ [] "2024-01-01T00:00:00Z" none).2).status
      = ExperienceStatus.in_progress
    ∧ (getExportStatus (exportExperienceInit "gen-id" "s1"
        ⟨"A", "ctx", "sum", [], []⟩ [] "2024-01-01T00:00:00Z" none).2).status
      ≠ ExperienceStatus.initializing := by
  constructor
  · rfl
  · decide

/-- C8 (amended): for every valid session id, immediately after session
creation on a fresh state the directory contains exactly the staging
record `summary.json`, so the status operation reports in-progress with
next batch number 1; the initializing state (also with next batch number
1) is reported exactly for an existing directory whose listing is empty. -/
theorem C8_status_after_init (genId inputId : String)
    (summary : ExperienceSummaryInput) (metadata : List (String × JVal))
    (createdAt : String)
    (hv : validSessionId (if inputId == "" then genId else inputId) = true) :
    getExportStatus
        (exportExperienceInit genId inputId summary metadata createdAt none).2
      = ⟨ExperienceStatus.in_progress, 1, ["summary.json"], false⟩
    ∧ getExportStatus (some ([] : Dir))
      = ⟨ExperienceStatus.initializing, 1, [], false⟩ := by
  constructor
  · unfold exportExperienceInit
    rw [if_pos hv]
    rfl
  · rfl

/-- C8 witness: the amended theorem applied at a concrete session id. -/
theorem C8_status_after_init_witness :
    getExportStatus
        (exportExperienceInit "gen-id" "s1" ⟨"A", "ctx", "sum", [], []⟩ []
          "2024-01-01T00:00:00Z" none).2
      = ⟨ExperienceStatus.in_progress, 1, ["summary.json"], false⟩
    ∧ getExportStatus (some ([] : Dir))
      = ⟨ExperienceStatus.initializing, 1, [], false⟩ :=
  C8_status_after_init "gen-id" "s1" ⟨"A", "ctx", "sum", [], []⟩ []
    "2024-01-01T00:00:00Z" (by decide)

/-! ### C6: session identifier guard -/

/-- C6 counterexample: init invoked with the empty session id does not
fail; the empty string is falsy in the `session_id || uuidv4()` fallback,
so a fresh id is generated and the directory is created and written. -/
theorem C6_counterexample :
    (exportExperienceInit "generated-uuid" "" ⟨"A", "ctx", "sum", [], []⟩ []
        "2024-01-01T00:00:00Z" none).1.success = true
    ∧ (exportExperienceInit "generated-uuid" "" ⟨"A", "ctx", "sum", [], []⟩ []
        "2024-01-01T00:00:00Z" none).2 ≠ none := by
  exact ⟨rfl, fun h => Option.noConfusion h⟩

/-- C6 (amended): an id containing a slash, backslash or parent-directory
sequence makes path resolution fail and every operation (init, batch
write, thoughts write, status, finalize) return an error without touching
the state; the empty id is likewise rejected by batch write, thoughts
write, status and finalize, but init treats an empty id as absent and
proceeds under a freshly generated id instead of failing; for ids passing
validation, path resolution is pure string composition under the storage
root. -/
theorem C6_session_id_guard (baseDir id genId : String)
    (summary : ExperienceSummaryInput) (metadata : List (String × JVal))
    (createdAt : String) (n : Nat) (convs : List Conversation)
    (thoughts : List (String × JVal)) (st : Option Dir) :
    ((strContains id "/" || strContains id "\\" || strContains id "..") = true →
        getExperienceDirectoryPath baseDir id = none
        ∧ exportExperienceInit genId id summary metadata createdAt st = (⟨false, ""⟩, st)
        ∧ (getExportStatusOp id st).error = true
        ∧ exportExperienceConversations id n convs st = (false, st)
        ∧ exportExperienceThoughts id thoughts st = (false, st)
        ∧ exportExperienceFinalize id st = (false, st))
    ∧ (id = "" →
        (getExportStatusOp id st).error = true
        ∧ exportExperienceConversations id n convs st = (false, st)
        ∧ exportExperienceThoughts id thoughts st = (false, st)
        ∧ exportExperienceFinalize id st = (false, st)
        ∧ exportExperienceInit genId id summary metadata createdAt st
            = exportExperienceInit genId genId summary metadata createdAt st)
    ∧ (validSessionId id = true →
        getExperienceDirectoryPath baseDir id
          = some (baseDir ++ "/experience_" ++ id)) := by
  refine ⟨?_, ?_, ?_⟩
  · intro hbad
    have hv : validSessionId id = false := by
      unfold validSessionId
      cases hb : strContains id "/" <;> cases hc : strContains id "\\" <;>
        cases hd : strContains id ".." <;> simp_all
    have hne : (id == "") = false := by
      rcases eq_or_ne id "" with rfl | hne2
      · exact absurd hbad (by decide)
      · exact beq_eq_false_iff_ne.mpr hne2
    refine ⟨by simp [getExperienceDirectoryPath, hv], ?_, ?_, ?_, ?_, ?_⟩
    · unfold exportExperienceInit
      simp only [hne, Bool.false_eq_true, if_false, hv]
    · simp [getExportStatusOp, hv]
    · simp [exportExperienceConversations, hv]
    · simp [exportExperienceThoughts, hv]
    · simp [exportExperienceFinalize, hv]
  · rintro rfl
    have hv : validSessionId "" = false := by decide
    refine ⟨by simp [getExportStatusOp, hv], by simp [exportExperienceConversations, hv],
      by simp [exportExperienceThoughts, hv], by simp [exportExperienceFinalize, hv], ?_⟩
    unfold exportExperienceInit
    simp
  · intro hv
    simp [getExperienceDirectoryPath, hv]

/-- C6 witness: the amended theorem applied at the traversal id and at a
benign id. -/
theorem C6_session_id_guard_witness :
    (getExperienceDirectoryPath "./experiences" "../../etc" = none
      ∧ exportExperienceInit "gen-id" "../../etc" ⟨"A", "c", "s", [], []⟩ [] "t0" none
          = (⟨false, ""⟩, none)
      ∧ (getExportStatusOp "../../etc" none).error = true
      ∧ exportExperienceConversations "../../etc" 1 [] none = (false, none)
      ∧ exportExperienceThoughts "../../etc" [] none = (false, none)
      ∧ exportExperienceFinalize "../../etc" none = (false, none))
    ∧ getExperienceDirectoryPath "./experiences" "s1"
        = some "./experiences/experience_s1" :=
  ⟨(C6_session_id_guard "./experiences" "../../etc" "gen-id" ⟨"A", "c", "s", [], []⟩ []
        "t0" 1 [] [] none).1 (by decide),
   (C6_session_id_guard "./experiences" "s1" "gen-id" ⟨"A", "c", "s", [], []⟩ []
        "t0" 1 [] [] none).2.2 (by decide)⟩

/-! ### C9: batch writing -/

theorem jGet_cons (k k2 : String) (v : JVal) (fs : List (String × JVal)) :
    jGet (.jobj ((k2, v) :: fs)) k = if k2 == k then some v else jGet (.jobj fs) k := by
  cases h : k2 == k <;> simp [jGet, List.find?, h]

theorem jGet_nil (k : String) : jGet (.jobj []) k = none := rfl

theorem foldr_append_nil {α : Type} (g : α → List String) (l : List α)
    (h : ∀ x ∈ l, g x = []) :
    l.foldr (fun c acc => g c ++ acc) [] = [] := by
  induction l with
  | nil => rfl
  | cons a l ih =>
    simp only [List.foldr_cons, h a (List.mem_cons_self a l), List.nil_append]
    exact ih (fun x hx => h x (List.mem_cons_of_mem a hx))

theorem conversationItemErrors_conversationJson (c : Conversation) :
    conversationItemErrors (conversationJson c) = [] := by
  unfold conversationJson conversationItemErrors
  cases hr : c.reasoning <;>
    simp [optField, reqStrErr, optStrErr, jGet_cons, jGet_nil]

/-- The batch object generated by the writer passes the conversation
schema exactly when it is not the degenerate first batch with an empty
record list (whose generated end index 0 violates the schema minimum). -/
theorem conversationBatchErrors_mk (n : Nat) (convs : List Conversation)
    (h1 : 1 ≤ n) (h2 : n = 1 → convs ≠ []) :
    conversationBatchErrors (mkConversationBatchJson n convs) = [] := by
  have h1i : (1 : Int) ≤ (n : Int) := by exact_mod_cast h1
  have hsi : (1 : Int) ≤ (((n - 1) * conversationBatchSize + 1 : Nat) : Int) := by
    exact_mod_cast Nat.le_add_left 1 _
  have hendn : 1 ≤ (n - 1) * conversationBatchSize + convs.length := by
    rcases Nat.lt_or_ge n 2 with hn | hn
    · have hn1 : n = 1 := by omega
      have hc : 0 < convs.length := List.length_pos.mpr (h2 hn1)
      omega
    · have h50 : conversationBatchSize = 50 := rfl
      have hge : 1 ≤ n - 1 := by omega
      have : 50 ≤ (n - 1) * conversationBatchSize := by
        rw [h50]; omega
      omega
  have hend : (1 : Int) ≤ (((n - 1) * conversationBatchSize + convs.length : Nat) : Int) := by
    exact_mod_cast hendn
  have hitems : (convs.map conversationJson).foldr
      (fun c acc => conversationItemErrors c ++ acc) [] = [] :=
    foldr_append_nil _ _ (by
      intro x hx
      rcases List.mem_map.mp hx with ⟨c, _, rfl⟩
      exact conversationItemErrors_conversationJson c)
  have hA : (0 : Int) ≤ ((n : Int) - 1) * (conversationBatchSize : Int) := by
    rw [show ((conversationBatchSize : Nat) : Int) = 50 from rfl]
    omega
  have hB : (1 : Int) ≤ ((n : Int) - 1) * (conversationBatchSize : Int)
      + (convs.length : Int) := by
    rw [show ((conversationBatchSize : Nat) : Int) = 50 from rfl]
    have := hendn
    rw [show conversationBatchSize = 50 from rfl] at this
    omega
  unfold mkConversationBatchJson conversationBatchErrors batchInfoErrors
  simp [jGet_cons, jGet_nil, reqMinIntErr, optMinIntErr, h1i, hsi, hend, hitems]
  exact ⟨hA, hB⟩

/-- The generated batch for batch number 1 with an empty record list fails
the conversation schema (its end index is 0). -/
theorem conversationBatchErrors_mk_one_nil :
    conversationBatchErrors (mkConversationBatchJson 1 []) ≠ [] := by decide

theorem validateConversationBatch_mk (n : Nat) (convs : List Conversation)
    (h1 : 1 ≤ n) (h2 : n = 1 → convs ≠ []) :
    validateConversationBatch (mkConversationBatchJson n convs) = ⟨true, [], []⟩ := by
  have he := conversationBatchErrors_mk n convs h1 h2
  have hd : batchDeclaredCount (mkConversationBatchJson n convs) = some convs.length := by
    unfold mkConversationBatchJson batchDeclaredCount
    simp [jGet_cons, jGet_nil]
  have hc : batchConversations (mkConversationBatchJson n convs)
      = some (convs.map conversationJson) := by
    unfold mkConversationBatchJson batchConversations
    simp [jGet_cons, jGet_nil]
  unfold validateConversationBatch
  rw [he]
  simp [hd, hc]

theorem filter_key_ne_idem (d : Dir) (n : String) :
    (d.filter (fun p => p.1 != n)).filter (fun p => p.1 != n)
      = d.filter (fun p => p.1 != n) := by
  induction d with
  | nil => rfl
  | cons a d ih =>
    by_cases h : a.1 = n
    · simp [List.filter_cons, h, ih]
    · simp [List.filter_cons, bne_iff_ne, h, ih]

theorem setFile_setFile (d : Dir) (n : String) (v v2 : Option JVal) :
    setFile (setFile d n v) n v2 = setFile d n v2 := by
  unfold setFile
  rw [List.filter_append, filter_key_ne_idem]
  simp

theorem count_dirNames_setFile (d : Dir) (f : String) (v : Option JVal) :
    ((dirNames (setFile d f v)).count f) = 1 := by
  rw [dirNames_setFile, List.count_append]
  have h0 : ((dirNames d).filter (fun x => x != f)).count f = 0 := by
    rw [List.count_eq_zero]
    intro hmem
    rcases List.mem_filter.mp hmem with ⟨_, hne⟩
    simp at hne
  rw [h0]
  simp

/-- C9 counterexample: a second write with the same batch number does not
always replace the first file.  After a successful write of batch 1 with
one record, writing batch 1 again with an empty record list fails the
conversation schema (generated end index 0 violates the minimum of 1): the
call reports an error, the state is unchanged, and the file still holds
the first write's content, which differs from the second's. -/
theorem C9_counterexample :
    (exportExperienceConversations "s1" 1 []
        ((exportExperienceConversations "s1" 1 [⟨"t1", "q1", "a1", some "r1"⟩]
          (some [])).2)).1 = false
    ∧ (exportExperienceConversations "s1" 1 []
        ((exportExperienceConversations "s1" 1 [⟨"t1", "q1", "a1", some "r1"⟩]
          (some [])).2)).2
      = (exportExperienceConversations "s1" 1 [⟨"t1", "q1", "a1", some "r1"⟩]
          (some [])).2
    ∧ (exportExperienceConversations "s1" 1 [⟨"t1", "q1", "a1", some "r1"⟩]
          (some [])).2
      = some [(batchFilename 1,
          some (mkConversationBatchJson 1 [⟨"t1", "q1", "a1", some "r1"⟩]))]
    ∧ mkConversationBatchJson 1 [] ≠ mkConversationBatchJson 1 [⟨"t1", "q1", "a1", some "r1"⟩] := by
  refine ⟨rfl, rfl, rfl, ?_⟩
  simp [mkConversationBatchJson]

/-- C9 (amended): the batch filename is the deterministic zero-padded
(width 3) batch number with constant prefix and suffix; every write whose
generated batch passes the schema (all writes except batch 1 with an empty
record list) stores exactly the deterministic batch object at that name,
fully replacing any prior content (last-write-wins, at most one directory
entry per batch number), and writing the same records twice is idempotent
(the repeated call leaves the state and result unchanged, so the file
contents are byte-identical). -/
theorem C9_batch_write_semantics (id : String) (hid : validSessionId id = true) :
    (∀ (n : Nat) (convs : List Conversation) (st : Option Dir),
        1 ≤ n → (n = 1 → convs ≠ []) →
        exportExperienceConversations id n convs st
          = (true, some (setFile (st.getD []) (batchFilename n)
              (some (mkConversationBatchJson n convs)))))
    ∧ (∀ (n : Nat) (convs : List Conversation) (st : Option Dir),
        exportExperienceConversations id n convs
            ((exportExperienceConversations id n convs st).2)
          = exportExperienceConversations id n convs st)
    ∧ (∀ (n : Nat) (convs : List Conversation) (st : Option Dir) (d : Dir),
        exportExperienceConversations id n convs st = (true, some d) →
          getFile d (batchFilename n) = some (some (mkConversationBatchJson n convs))
          ∧ (dirNames d).count (batchFilename n) = 1
          ∧ ∀ (convs2 : List Conversation) (d2 : Dir),
              exportExperienceConversations id n convs2 (some d) = (true, some d2) →
              getFile d2 (batchFilename n)
                = some (some (mkConversationBatchJson n convs2))) := by
  have hwrite : ∀ (n : Nat) (convs : List Conversation) (st : Option Dir),
      1 ≤ n → (n = 1 → convs ≠ []) →
      exportExperienceConversations id n convs st
        = (true, some (setFile (st.getD []) (batchFilename n)
            (some (mkConversationBatchJson n convs)))) := by
    intro n convs st hn h2
    have hg : decide (n < 1) = false := decide_eq_false (by omega)
    simp [exportExperienceConversations, hg, hid,
      validateConversationBatch_mk n convs hn h2]
    omega
  have hinv : ∀ (n : Nat) (convs : List Conversation) (st : Option Dir) (d : Dir),
      exportExperienceConversations id n convs st = (true, some d) →
      d = setFile (st.getD []) (batchFilename n)
            (some (mkConversationBatchJson n convs)) := by
    intro n convs st d h
    unfold exportExperienceConversations at h
    by_cases hg : (decide (n < 1) || !validSessionId id) = true
    · rw [if_pos hg] at h
      exact absurd (congrArg Prod.fst h) (by simp)
    · rw [if_neg hg] at h
      by_cases hv : (validateConversationBatch (mkConversationBatchJson n convs)).valid = true
      · rw [if_pos hv] at h
        have := congrArg Prod.snd h
        simpa using this.symm
      · rw [if_neg hv] at h
        exact absurd (congrArg Prod.fst h) (by simp)
  refine ⟨hwrite, ?_, ?_⟩
  · intro n convs st
    unfold exportExperienceConversations
    by_cases hg : (decide (n < 1) || !validSessionId id) = true
    · rw [if_pos hg, if_pos hg]
    · rw [if_neg hg]
      by_cases hv : (validateConversationBatch (mkConversationBatchJson n convs)).valid = true
      · rw [if_pos hv, if_neg hg, if_pos hv]
        simp [setFile_setFile]
      · rw [if_neg hv, if_neg hg, if_neg hv]
        simp
  · intro n convs st d h
    have hd := hinv n convs st d h
    subst hd
    refine ⟨getFile_setFile_self _ _ _, count_dirNames_setFile _ _ _, ?_⟩
    intro convs2 d2 h2
    have hd2 := hinv n convs2 _ d2 h2
    subst hd2
    simp [setFile_setFile, getFile_setFile_self]

/-- C9 witness: the amended theorem applied at a concrete session id,
batch number and record list. -/
theorem C9_batch_write_semantics_witness :
    exportExperienceConversations "s1" 2 [] (some [])
      = (true, some (setFile [] (batchFilename 2)
          (some (mkConversationBatchJson 2 [])))) :=
  (C9_batch_write_semantics "s1" (by decide)).1 2 [] (some [])
    (by decide) (by omega)



/-! ### Inversion and extraction lemmas for the finalizer -/

theorem finalizeDir_success_elim {id : String} {d : Dir} {st' : Option Dir}
    (h : finalizeDir id d = (true, st')) :
    ∃ s s2, getFile d "summary.json" = some (some s)
      ∧ jIsObj s = true
      ∧ jGet s "summary" = some s2
      ∧ jIsNull s2 = false
      ∧ experienceMetadataErrors (finalizeManifest id s s2 d) = []
      ∧ st' = some (removeFile (setFile d "manifest.json"
          (some (finalizeManifest id s s2 d))) "summary.json") := by
  unfold finalizeDir at h
  split at h
  · rename_i s heq
    dsimp only [] at h
    split at h
    · rename_i ho
      split at h
      · simp at h
      · rename_i s2 hs2
        split at h
        · simp at h
        · rename_i hn
          split at h
          · rename_i he
            exact ⟨s, s2, heq, ho, hs2, by simpa using hn,
              List.isEmpty_iff.mp he, (congrArg Prod.snd h).symm⟩
          · simp at h
    · simp at h
  · simp at h

theorem finalize_success_elim {id : String} {d : Dir} {st' : Option Dir}
    (h : exportExperienceFinalize id (some d) = (true, st')) :
    validSessionId id = true ∧ finalizeDir id d = (true, st') := by
  unfold exportExperienceFinalize at h
  by_cases hv : validSessionId id = true
  · rw [if_neg (by simp [hv])] at h
    exact ⟨hv, h⟩
  · have hvf : validSessionId id = false := by
      cases hb : validSessionId id
      · rfl
      · exact absurd hb hv
    rw [if_pos (by simp [hvf])] at h
    simp at h

theorem finalizeDir_success_intro (id : String) (d : Dir) (s s2 : JVal)
    (hsum : getFile d "summary.json" = some (some s)) (ho : jIsObj s = true)
    (hs2 : jGet s "summary" = some s2) (hn : jIsNull s2 = false)
    (he : experienceMetadataErrors (finalizeManifest id s s2 d) = []) :
    finalizeDir id d = (true, some (removeFile (setFile d "manifest.json"
        (some (finalizeManifest id s s2 d))) "summary.json")) := by
  unfold finalizeDir
  rw [hsum]
  dsimp only []
  rw [if_pos ho, hs2]
  dsimp only []
  rw [if_neg (by simp [hn]), if_pos (by simp [he])]

theorem find?_optField_ne (k k2 : String) (v : Option JVal) (h : (k == k2) = false) :
    (optField k v).find? (fun p => p.1 == k2) = none := by
  cases v <;> simp [optField, List.find?, h]

theorem jGet_finalizeManifest_files (id : String) (s s2 : JVal) (d : Dir) :
    jGet (finalizeManifest id s s2 d) "files" = some (.jobj
      [("conversations", .jarr ((finalizeConversationFiles d).map .jstr)),
       ("thoughts", .jstr (if (dirNames d).contains "thoughts.json"
                           then "thoughts.json" else ""))]) := by
  unfold finalizeManifest jGet
  simp [List.find?_append, find?_optField_ne, List.find?]

theorem jGet_finalizeManifest_total (id : String) (s s2 : JVal) (d : Dir) :
    jGet (finalizeManifest id s s2 d) "total_conversations"
      = some (.jnum (finalizeTotal d)) := by
  unfold finalizeManifest jGet
  simp [List.find?_append, find?_optField_ne, List.find?]

theorem extractStrings_map_jstr (xs : List String) :
    extractStrings (xs.map JVal.jstr) = some xs := by
  induction xs with
  | nil => rfl
  | cons a xs ih => simp [extractStrings, ih]

theorem manifestConvNames_finalizeManifest (id : String) (s s2 : JVal) (d : Dir) :
    manifestConvNames (finalizeManifest id s s2 d)
      = some (finalizeConversationFiles d) := by
  unfold manifestConvNames
  rw [jGet_finalizeManifest_files]
  simp [jGet_cons, extractStrings_map_jstr]

theorem manifestThoughtsName_finalizeManifest (id : String) (s s2 : JVal) (d : Dir) :
    manifestThoughtsName (finalizeManifest id s s2 d)
      = some (if (dirNames d).contains "thoughts.json"
              then "thoughts.json" else "") := by
  unfold manifestThoughtsName
  rw [jGet_finalizeManifest_files]
  simp [jGet_cons]

theorem manifestTotal_finalizeManifest (id : String) (s s2 : JVal) (d : Dir) :
    manifestTotal (finalizeManifest id s s2 d)
      = some ((finalizeTotal d : Nat) : Int) := by
  unfold manifestTotal
  rw [jGet_finalizeManifest_total]

/-! ### C7: ordering of batch files in the manifest -/

/-- A session directory holding a staging record and batches 999 and 1000,
exercising the sort order past three digits. -/
def c7dir : Dir :=
  [("summary.json", some (.jobj
      [("summary", summaryJson ⟨"A", "ctx", "sum", [], []⟩),
       ("metadata", .jobj []), ("session_id", .jstr "s1"),
       ("created_at", .jstr "2024-01-01T00:00:00Z")])),
   (batchFilename 999, some (mkConversationBatchJson 999 [⟨"t", "q", "a", none⟩])),
   (batchFilename 1000, some (mkConversationBatchJson 1000 [⟨"t", "q", "a", none⟩]))]

/-- C7 counterexample: with batches 999 and 1000 present, finalize
succeeds and lists the batch files in lexicographic filename order, which
puts batch 1000 before batch 999 — the numeric suffixes of the manifest
list are not ascending, refuting the claimed numeric ordering. -/
theorem C7_counterexample :
    (exportExperienceFinalize "s1" (some c7dir)).1 = true
    ∧ finalizeConversationFiles c7dir
        = ["conversations_1000.json", "conversations_999.json"]
    ∧ (finalizeConversationFiles c7dir).filterMap extractBatchNumber = [1000, 999]
    ∧ ¬ List.Pairwise (fun a b => a ≤ b)
        ((finalizeConversationFiles c7dir).filterMap extractBatchNumber) := by
  refine ⟨rfl, rfl, rfl, ?_⟩
  rw [show (finalizeConversationFiles c7dir).filterMap extractBatchNumber
      = [1000, 999] from rfl]
  intro hp
  have := (List.pairwise_cons.mp hp).1 999 (by simp)
  omega

/-- C7 (amended): the batch files listed in the manifest are the directory
entries matching the batch-file filter, ordered by the default
(lexicographic, code-unit) string sort ascending — an order which is not
numeric beyond three digits, as the counterexample shows. -/
theorem C7_finalize_batch_order (id : String) (d : Dir) (st' : Option Dir)
    (h : exportExperienceFinalize id (some d) = (true, st')) :
    ∃ d1 m, st' = some d1
      ∧ getFile d1 "manifest.json" = some (some m)
      ∧ manifestConvNames m
          = some (sortLex ((dirNames d).filter isConversationFile))
      ∧ List.Pairwise (fun a b => strLe a b = true)
          (sortLex ((dirNames d).filter isConversationFile)) := by
  rcases finalize_success_elim h with ⟨hv, hfd⟩
  rcases finalizeDir_success_elim hfd with ⟨s, s2, hsum, ho, hs2, hn, he, rfl⟩
  refine ⟨_, finalizeManifest id s s2 d, rfl, ?_, ?_, sortLex_pairwise _⟩
  · rw [getFile_removeFile_ne _ _ _ (by decide), getFile_setFile_self]
  · exact manifestConvNames_finalizeManifest id s s2 d

/-- C7 witness: the amended theorem applied to the concrete directory with
batches 999 and 1000. -/
theorem C7_finalize_batch_order_witness :
    ∃ d1 m, (exportExperienceFinalize "s1" (some c7dir)).2 = some d1
      ∧ getFile d1 "manifest.json" = some (some m)
      ∧ manifestConvNames m
          = some (sortLex ((dirNames c7dir).filter isConversationFile))
      ∧ List.Pairwise (fun a b => strLe a b = true)
          (sortLex ((dirNames c7dir).filter isConversationFile)) :=
  C7_finalize_batch_order "s1" c7dir _ rfl

/-! ### C4: corrupt batch files during finalize -/

theorem sum_map_filter_ne (c : String → Nat) (f : String) (hc : c f = 0)
    (L : List String) :
    (L.map c).sum = ((L.filter (fun x => x != f)).map c).sum := by
  induction L with
  | nil => rfl
  | cons a L ih =>
    by_cases h : a = f
    · subst h
      simp [List.filter_cons, hc, ih]
    · simp [List.filter_cons, bne_iff_ne, h, ih]

/-- A session directory with a staging record, one good batch and one
corrupt (unparsable) batch file. -/
def c4dir : Dir :=
  [("summary.json", some (.jobj
      [("summary", summaryJson ⟨"A", "ctx", "sum", [], []⟩),
       ("metadata", .jobj []), ("session_id", .jstr "s1"),
       ("created_at", .jstr "2024-01-01T00:00:00Z")])),
   (batchFilename 1, some (mkConversationBatchJson 1 [⟨"t", "q", "a", none⟩])),
   (batchFilename 2, none)]

/-- C4 counterexample: with a corrupt batch file present, finalize does
not abort: it succeeds, writes a manifest that still lists the corrupt
file, and reports a total that silently omits the corrupt batch's records
(1, from the good batch only). -/
theorem C4_counterexample :
    (exportExperienceFinalize "s1" (some c4dir)).1 = true
    ∧ ∃ m, getFile ((exportExperienceFinalize "s1" (some c4dir)).2.getD [])
          "manifest.json" = some (some m)
        ∧ manifestConvNames m
            = some ["conversations_001.json", "conversations_002.json"]
        ∧ manifestTotal m = some 1 :=
  ⟨rfl, _, rfl, rfl, rfl⟩

/-- C4 (amended): a batch file that is present but unparsable (or
schema-invalid) does not abort finalization; when finalize succeeds, the
corrupt file is still listed in the manifest's batch-file list but
contributes nothing to the total: the total equals the total computed
over the directory with that file removed. -/
theorem C4_corrupt_batch_skipped (id : String) (d : Dir) (st' : Option Dir)
    (f : String)
    (h : exportExperienceFinalize id (some d) = (true, st'))
    (hf : isConversationFile f = true)
    (hc : getFile d f = some none) :
    ∃ d1 m, st' = some d1
      ∧ getFile d1 "manifest.json" = some (some m)
      ∧ manifestConvNames m = some (finalizeConversationFiles d)
      ∧ f ∈ finalizeConversationFiles d
      ∧ finalizeBatchContribution d f = 0
      ∧ finalizeTotal d = finalizeTotal (removeFile d f) := by
  rcases finalize_success_elim h with ⟨hv, hfd⟩
  rcases finalizeDir_success_elim hfd with ⟨s, s2, hsum, ho, hs2, hn, he, rfl⟩
  have hcontrib : finalizeBatchContribution d f = 0 := by
    unfold finalizeBatchContribution
    rw [hc]
  have hmem : f ∈ finalizeConversationFiles d := by
    unfold finalizeConversationFiles
    rw [(sortLex_perm _).mem_iff]
    exact List.mem_filter.mpr ⟨mem_dirNames_of_getFile d f none hc, hf⟩
  have htot : finalizeTotal d = finalizeTotal (removeFile d f) := by
    unfold finalizeTotal finalizeConversationFiles
    have hperm1 := ((sortLex_perm ((dirNames d).filter isConversationFile)).map
      (finalizeBatchContribution d)).sum_eq
    rw [hperm1]
    rw [sum_map_filter_ne (finalizeBatchContribution d) f hcontrib]
    have hnames : (dirNames (removeFile d f)).filter isConversationFile
        = ((dirNames d).filter isConversationFile).filter (fun x => x != f) := by
      rw [dirNames_removeFile]
      exact List.filter_comm _ _ _
    rw [hnames]
    have hstable : (((dirNames d).filter isConversationFile).filter
          (fun x => x != f)).map (finalizeBatchContribution d)
        = (((dirNames d).filter isConversationFile).filter
          (fun x => x != f)).map (finalizeBatchContribution (removeFile d f)) := by
      refine List.map_congr_left ?_
      intro g hg
      have hgne : g ≠ f := by
        have := (List.mem_filter.mp hg).2
        simpa using this
      unfold finalizeBatchContribution
      rw [getFile_removeFile_ne d f g hgne]
    rw [hstable]
    have hperm2 := ((sortLex_perm (((dirNames d).filter isConversationFile).filter
      (fun x => x != f))).map (finalizeBatchContribution (removeFile d f))).sum_eq
    rw [hperm2]
  refine ⟨_, finalizeManifest id s s2 d, rfl, ?_,
    manifestConvNames_finalizeManifest id s s2 d, hmem, hcontrib, htot⟩
  rw [getFile_removeFile_ne _ _ _ (by decide), getFile_setFile_self]

/-- C4 witness: the amended theorem applied to the concrete directory with
a corrupt second batch. -/
theorem C4_corrupt_batch_skipped_witness :
    ∃ d1 m, (exportExperienceFinalize "s1" (some c4dir)).2 = some d1
      ∧ getFile d1 "manifest.json" = some (some m)
      ∧ manifestConvNames m = some (finalizeConversationFiles c4dir)
      ∧ "conversations_002.json" ∈ finalizeConversationFiles c4dir
      ∧ finalizeBatchContribution c4dir "conversations_002.json" = 0
      ∧ finalizeTotal c4dir
          = finalizeTotal (removeFile c4dir "conversations_002.json") :=
  C4_corrupt_batch_skipped "s1" c4dir _ "conversations_002.json" rfl (by decide) rfl

/-! ### C2: idempotent repair of finalize -/

theorem contains_eq_of_mem_iff (l1 l2 : List String) (t : String)
    (h : t ∈ l1 ↔ t ∈ l2) : l1.contains t = l2.contains t := by
  by_cases hm : t ∈ l2
  · have e1 : l1.contains t = true := List.elem_iff.mpr (h.mpr hm)
    have e2 : l2.contains t = true := List.elem_iff.mpr hm
    rw [e1, e2]
  · have h1 : l1.contains t = false := by
      cases hb : l1.contains t
      · rfl
      · exact absurd (h.mp (List.elem_iff.mp hb)) hm
    have h2 : l2.contains t = false := by
      cases hb : l2.contains t
      · rfl
      · exact absurd (List.elem_iff.mp hb) hm
    rw [h1, h2]

theorem mem_dirNames_setFile_ne (d : Dir) (f : String) (v : Option JVal)
    (t : String) (h : t ≠ f) :
    t ∈ dirNames (setFile d f v) ↔ t ∈ dirNames d := by
  rw [dirNames_setFile]
  simp [List.mem_filter, bne_iff_ne, h]

theorem mem_dirNames_removeFile_ne (d : Dir) (f : String)
    (t : String) (h : t ≠ f) :
    t ∈ dirNames (removeFile d f) ↔ t ∈ dirNames d := by
  rw [dirNames_removeFile]
  simp [List.mem_filter, bne_iff_ne, h]

theorem finalizeManifest_congr (id : String) (s s2 : JVal) (d d2 : Dir)
    (h1 : finalizeConversationFiles d2 = finalizeConversationFiles d)
    (h2 : finalizeTotal d2 = finalizeTotal d)
    (h3 : (dirNames d2).contains "thoughts.json"
        = (dirNames d).contains "thoughts.json") :
    finalizeManifest id s s2 d2 = finalizeManifest id s s2 d := by
  unfold finalizeManifest
  rw [h1, h2, h3]

theorem finalizeDir_read_fail (id : String) (d : Dir)
    (h : getFile d "summary.json" = none) :
    finalizeDir id d = (false, some d) := by
  unfold finalizeDir
  rw [h]

/-- C2 (amended): finalize is an idempotent repair only while the staging
record survives.  Whenever finalize succeeds on a directory, the resulting
state contains the manifest and no staging record, and: (i) a second
finalize call fails with an error and leaves the state unchanged, (ii)
status reports completed with the sentinel next batch number -1, and (iii)
on the crash state in which the staging record still sits beside the
manifest (a crash between the manifest write and the staging delete), a
repeated finalize succeeds, recomputes the identical manifest, deletes the
staging record, and produces a state that agrees with the first result on
every file. -/
theorem C2_finalize_idempotent_repair (id : String) (d : Dir) (st' : Option Dir)
    (h : exportExperienceFinalize id (some d) = (true, st')) :
    ∃ d1, st' = some d1
      ∧ exportExperienceFinalize id (some d1) = (false, some d1)
      ∧ getExportStatus (some d1)
          = ⟨ExperienceStatus.completed, -1, dirNames d1, false⟩
      ∧ ∃ s, getFile d "summary.json" = some (some s)
        ∧ ∃ d2, exportExperienceFinalize id
              (some (setFile d1 "summary.json" (some s))) = (true, some d2)
          ∧ (∀ g, getFile d2 g = getFile d1 g) := by
  rcases finalize_success_elim h with ⟨hv, hfd⟩
  rcases finalizeDir_success_elim hfd with ⟨s, s2, hsum, ho, hs2, hn, he, rfl⟩
  set m := finalizeManifest id s s2 d with hm
  set d1 := removeFile (setFile d "manifest.json" (some m)) "summary.json" with hd1
  have hsum1 : getFile d1 "summary.json" = none := getFile_removeFile_self _ _
  have hman1 : getFile d1 "manifest.json" = some (some m) := by
    rw [hd1, getFile_removeFile_ne _ _ _ (by decide), getFile_setFile_self]
  refine ⟨d1, rfl, ?_, ?_, s, hsum, ?_⟩
  · unfold exportExperienceFinalize
    rw [if_neg (by simp [hv])]
    exact finalizeDir_read_fail id d1 hsum1
  · have hcont : (dirNames d1).contains "manifest.json" = true :=
      List.elem_iff.mpr (mem_dirNames_of_getFile d1 "manifest.json" (some m) hman1)
    unfold getExportStatus
    dsimp only []
    rw [hcont]
    rfl
  · set dc := setFile d1 "summary.json" (some s) with hdc
    have hfilter : (dirNames dc).filter isConversationFile
        = (dirNames d).filter isConversationFile := by
      rw [hdc, dirNames_setFile,
        List.filter_append, filter_filter_ne_of_false _ _ (by decide),
        (by simp [isConversationFile, strStartsWith, strEndsWith] :
          List.filter isConversationFile ["summary.json"] = []),
        List.append_nil, hd1, dirNames_removeFile,
        filter_filter_ne_of_false _ _ (by decide), dirNames_setFile,
        List.filter_append, filter_filter_ne_of_false _ _ (by decide),
        (by simp [isConversationFile, strStartsWith, strEndsWith] :
          List.filter isConversationFile ["manifest.json"] = []),
        List.append_nil]
    have hgetstable : ∀ g, g ≠ "summary.json" → g ≠ "manifest.json" →
        getFile dc g = getFile d g := by
      intro g hg1 hg2
      rw [hdc, getFile_setFile_ne _ _ _ _ hg1, hd1,
        getFile_removeFile_ne _ _ _ hg1, getFile_setFile_ne _ _ _ _ hg2]
    have hconvne : ∀ g, isConversationFile g = true →
        g ≠ "summary.json" ∧ g ≠ "manifest.json" := by
      intro g hg
      constructor
      · rintro rfl
        exact absurd hg (by decide)
      · rintro rfl
        exact absurd hg (by decide)
    have hconv : finalizeConversationFiles dc = finalizeConversationFiles d := by
      unfold finalizeConversationFiles
      rw [hfilter]
    have htotal : finalizeTotal dc = finalizeTotal d := by
      unfold finalizeTotal
      rw [hconv]
      refine congrArg List.sum (List.map_congr_left ?_)
      intro g hg
      have hgmem : g ∈ (dirNames d).filter isConversationFile := by
        rw [← (sortLex_perm _).mem_iff]
        exact hg
      have hgconv : isConversationFile g = true := (List.mem_filter.mp hgmem).2
      rcases hconvne g hgconv with ⟨hg1, hg2⟩
      unfold finalizeBatchContribution
      rw [hgetstable g hg1 hg2]
    have hth : (dirNames dc).contains "thoughts.json"
        = (dirNames d).contains "thoughts.json" := by
      refine contains_eq_of_mem_iff _ _ _ ?_
      rw [hdc, mem_dirNames_setFile_ne _ _ _ _ (by decide), hd1,
        mem_dirNames_removeFile_ne _ _ _ (by decide),
        mem_dirNames_setFile_ne _ _ _ _ (by decide)]
    have hmeq : finalizeManifest id s s2 dc = m :=
      finalizeManifest_congr id s s2 d dc hconv htotal hth
    have hsumc : getFile dc "summary.json" = some (some s) :=
      getFile_setFile_self _ _ _
    have hec : experienceMetadataErrors (finalizeManifest id s s2 dc) = [] := by
      rw [hmeq]
      exact he
    have hfin2 := finalizeDir_success_intro id dc s s2 hsumc ho hs2 hn hec
    refine ⟨removeFile (setFile dc "manifest.json"
        (some (finalizeManifest id s s2 dc))) "summary.json", ?_, ?_⟩
    · unfold exportExperienceFinalize
      rw [if_neg (by simp [hv])]
      exact hfin2
    · intro g
      by_cases hg1 : g = "summary.json"
      · subst hg1
        rw [getFile_removeFile_self, hsum1]
      · by_cases hg2 : g = "manifest.json"
        · subst hg2
          rw [getFile_removeFile_ne _ _ _ hg1, getFile_setFile_self, hmeq, hman1]
        · rw [getFile_removeFile_ne _ _ _ hg1, getFile_setFile_ne _ _ _ _ hg2,
            hdc, getFile_setFile_ne _ _ _ _ hg1]

/-- A directory with a staging record and one batch, as produced by init
followed by one batch write. -/
def c2dir : Dir :=
  [("summary.json", some (.jobj
      [("summary", summaryJson ⟨"A", "ctx", "sum", [], []⟩),
       ("metadata", .jobj []), ("session_id", .jstr "s1"),
       ("created_at", .jstr "2024-01-01T00:00:00Z")])),
   (batchFilename 1, some (mkConversationBatchJson 1 [⟨"t", "q", "a", none⟩]))]

/-- C2 counterexample: after a successful finalize has deleted the staging
record, a second finalize call does not succeed as a no-op-equivalent
repair: the staging read fails and the call returns an error (though it
performs no writes). -/
theorem C2_counterexample :
    (exportExperienceFinalize "s1" (some c2dir)).1 = true
    ∧ (exportExperienceFinalize "s1"
        ((exportExperienceFinalize "s1" (some c2dir)).2)).1 = false
    ∧ (exportExperienceFinalize "s1"
        ((exportExperienceFinalize "s1" (some c2dir)).2)).2
      = (exportExperienceFinalize "s1" (some c2dir)).2 :=
  ⟨rfl, rfl, rfl⟩

/-- C2 witness: the amended theorem applied to the concrete session. -/
theorem C2_finalize_idempotent_repair_witness :
    ∃ d1, (exportExperienceFinalize "s1" (some c2dir)).2 = some d1
      ∧ exportExperienceFinalize "s1" (some d1) = (false, some d1)
      ∧ getExportStatus (some d1)
          = ⟨ExperienceStatus.completed, -1, dirNames d1, false⟩
      ∧ ∃ s, getFile c2dir "summary.json" = some (some s)
        ∧ ∃ d2, exportExperienceFinalize "s1"
              (some (setFile d1 "summary.json" (some s))) = (true, some d2)
          ∧ (∀ g, getFile d2 g = getFile d1 g) :=
  C2_finalize_idempotent_repair "s1" c2dir _ rfl

/-! ### Lemmas about the validation engine -/

theorem validateExperienceDirectory_elim {m : JVal} {files : List (String × JVal)}
    {r : DirectoryValidationResult}
    (h : validateExperienceDirectory m files = some r) :
    ∃ convNames thoughtsName crossWs,
      manifestConvNames m = some convNames
      ∧ manifestThoughtsName m = some thoughtsName
      ∧ (if (validateExperienceMetadata m).valid
         then crossFileWarnings m convNames files else some []) = some crossWs
      ∧ r = { valid := (validateExperienceMetadata m).valid
                && ((convNames ++ [thoughtsName]).filter
                    (fun f => !(files.any (fun p => p.1 == f)))).isEmpty
                && (files.map (fun p => (p.1, validateFileContent p.1 p.2))).all
                    (fun e => e.2.valid)
              manifest_valid := (validateExperienceMetadata m).valid
              semantic_valid := (files.map
                  (fun p => (p.1, validateFileContent p.1 p.2))).all
                    (fun e => e.2.valid)
              file_validations := files.map
                  (fun p => (p.1, validateFileContent p.1 p.2))
              missing_files := (convNames ++ [thoughtsName]).filter
                  (fun f => !(files.any (fun p => p.1 == f)))
              errors := (validateExperienceMetadata m).errors
              warnings := (validateExperienceMetadata m).warnings
                ++ (files.map (fun p => (p.1, validateFileContent p.1 p.2))).foldr
                    (fun e acc => e.2.warnings ++ acc) []
                ++ crossWs } := by
  unfold validateExperienceDirectory at h
  cases hc : manifestConvNames m with
  | none =>
    rw [hc] at h
    simp at h
  | some convNames =>
    rw [hc] at h
    cases ht : manifestThoughtsName m with
    | none =>
      rw [ht] at h
      simp at h
    | some thoughtsName =>
      rw [ht] at h
      dsimp only [] at h
      cases hcw : (if (validateExperienceMetadata m).valid
          then crossFileWarnings m convNames files else some []) with
      | none =>
        rw [hcw] at h
        simp at h
      | some crossWs =>
        rw [hcw] at h
        dsimp only [] at h
        exact ⟨convNames, thoughtsName, crossWs, rfl, rfl, hcw,
          (Option.some.inj h).symm⟩

theorem mem_insertFileEntry (acc : List (String × JVal)) (f : String) (v : JVal) :
    ∀ e ∈ insertFileEntry acc f v, e = (f, v) ∨ e ∈ acc := by
  unfold insertFileEntry
  split
  · intro e he
    rcases List.mem_map.mp he with ⟨p, hp, rfl⟩
    by_cases hpf : p.1 = f
    · left
      simp [hpf]
    · right
      simpa [hpf] using hp
  · intro e he
    rcases List.mem_append.mp he with h | h
    · exact Or.inr h
    · exact Or.inl (by simpa using h)

theorem collect_fold_invariant (d : Dir) (P : String × JVal → Prop)
    (l : List String) (acc : List (String × JVal))
    (hacc : ∀ e ∈ acc, P e)
    (hstep : ∀ f ∈ l, ∀ v, getFile d f = some (some v) → P (f, v)) :
    ∀ e ∈ l.foldl
      (fun acc f =>
        match getFile d f with
        | some (some v) => if jTruthy v then insertFileEntry acc f v else acc
        | _ => acc) acc, P e := by
  induction l generalizing acc with
  | nil => exact hacc
  | cons a l ih =>
    intro e he
    simp only [List.foldl_cons] at he
    have hstep2 : ∀ f ∈ l, ∀ v, getFile d f = some (some v) → P (f, v) :=
      fun f hf v hv => hstep f (List.mem_cons_of_mem a hf) v hv
    cases hga : getFile d a with
    | none =>
      rw [hga] at he
      exact ih acc hacc hstep2 e he
    | some o =>
      cases o with
      | none =>
        rw [hga] at he
        exact ih acc hacc hstep2 e he
      | some v =>
        rw [hga] at he
        dsimp only [] at he
        cases ht : jTruthy v with
        | false =>
          rw [ht] at he
          exact ih acc hacc hstep2 e he
        | true =>
          rw [ht] at he
          refine ih _ ?_ hstep2 e he
          intro e2 he2
          rcases mem_insertFileEntry acc a v e2 he2 with rfl | h2
          · exact hstep a (List.mem_cons_self a l) v hga
          · exact hacc e2 h2

theorem collect_entry_getFile (d : Dir) (expected : List String) :
    ∀ e ∈ collectExpectedFiles d expected, getFile d e.1 = some (some e.2) := by
  refine collect_fold_invariant d _ expected [] (by simp) ?_
  intro f _ v hv
  exact hv

theorem collect_entry_key_mem (d : Dir) (expected : List String) :
    ∀ e ∈ collectExpectedFiles d expected, e.1 ∈ expected := by
  refine collect_fold_invariant d _ expected [] (by simp) ?_
  intro f hf v _
  exact hf

theorem insertFileEntry_key_present (acc : List (String × JVal)) (a : String)
    (v : JVal) :
    (insertFileEntry acc a v).any (fun p => p.1 == a) = true := by
  unfold insertFileEntry
  split
  · rename_i hany
    rcases List.any_eq_true.mp hany with ⟨p, hp, hpa⟩
    refine List.any_eq_true.mpr ⟨(a, v), ?_, by simp⟩
    exact List.mem_map.mpr ⟨p, hp, by simp [hpa]⟩
  · exact List.any_eq_true.mpr ⟨(a, v), List.mem_append.mpr (Or.inr (by simp)), by simp⟩

theorem insertFileEntry_key_preserve (acc : List (String × JVal)) (a : String)
    (v : JVal) (f : String) (h : acc.any (fun p => p.1 == f) = true) :
    (insertFileEntry acc a v).any (fun p => p.1 == f) = true := by
  rcases List.any_eq_true.mp h with ⟨p, hp, hpf⟩
  unfold insertFileEntry
  split
  · refine List.any_eq_true.mpr ?_
    by_cases hpa : (p.1 == a) = true
    · refine ⟨(a, v), List.mem_map.mpr ⟨p, hp, by simp [hpa]⟩, ?_⟩
      have h1 : p.1 = a := beq_iff_eq.mp hpa
      have h2 : p.1 = f := beq_iff_eq.mp hpf
      simp [h1 ▸ h2]
    · exact ⟨p, List.mem_map.mpr ⟨p, hp, by simp [hpa]⟩, hpf⟩
  · exact List.any_eq_true.mpr ⟨p, List.mem_append.mpr (Or.inl hp), hpf⟩

theorem collect_fold_key_monotone (d : Dir) (f : String) :
    ∀ (l : List String) (acc : List (String × JVal)),
      acc.any (fun p => p.1 == f) = true →
      (l.foldl
        (fun acc f =>
          match getFile d f with
          | some (some v) => if jTruthy v then insertFileEntry acc f v else acc
          | _ => acc) acc).any (fun p => p.1 == f) = true := by
  intro l
  induction l with
  | nil => intro acc h; exact h
  | cons a l ih =>
    intro acc h
    simp only [List.foldl_cons]
    cases hga : getFile d a with
    | none => exact ih acc h
    | some o =>
      cases o with
      | none => exact ih acc h
      | some v =>
        dsimp only []
        cases ht : jTruthy v with
        | false => exact ih acc h
        | true => exact ih _ (insertFileEntry_key_preserve acc a v f h)

theorem collect_key_present (d : Dir) (expected : List String) (f : String)
    (v : JVal) (hf : f ∈ expected) (hv : getFile d f = some (some v))
    (ht : jTruthy v = true) :
    (collectExpectedFiles d expected).any (fun p => p.1 == f) = true := by
  unfold collectExpectedFiles
  suffices h : ∀ (l : List String) (acc : List (String × JVal)), f ∈ l →
      (l.foldl
        (fun acc f =>
          match getFile d f with
          | some (some v) => if jTruthy v then insertFileEntry acc f v else acc
          | _ => acc) acc).any (fun p => p.1 == f) = true by
    exact h expected [] hf
  intro l
  induction l with
  | nil =>
    intro acc h
    exact absurd h (List.not_mem_nil f)
  | cons a l ih =>
    intro acc hmem
    simp only [List.foldl_cons]
    rcases List.mem_cons.mp hmem with rfl | hmem2
    · rw [hv]
      dsimp only []
      rw [ht]
      exact collect_fold_key_monotone d f l _ (insertFileEntry_key_present acc f v)
    · cases hga : getFile d a with
      | none => exact ih acc hmem2
      | some o =>
        cases o with
        | none => exact ih acc hmem2
        | some v2 => exact ih _ hmem2

theorem getFile_isSome_of_mem_dirNames (d : Dir) (f : String)
    (h : f ∈ dirNames d) : ∃ c, getFile d f = some c := by
  rcases List.mem_map.mp h with ⟨p, hp, rfl⟩
  have hs : (d.find? (fun q => q.1 == p.1)).isSome := by
    rw [List.find?_isSome]
    exact ⟨p, hp, by simp⟩
  rcases Option.isSome_iff_exists.mp hs with ⟨q, hq⟩
  refine ⟨q.2, ?_⟩
  unfold getFile
  rw [hq]
  rfl

theorem validateThoughts_of_not_null (v : JVal) (h : jIsNull v = false) :
    validateThoughts v = ⟨true, [], []⟩ := by
  cases v with
  | jnull => simp [jIsNull] at h
  | jbool b => rfl
  | jnum n => rfl
  | jstr s => rfl
  | jarr xs => rfl
  | jobj fs => rfl

theorem validateConversationBatch_valid_of_ok (v : JVal)
    (h : conversationBatchErrors v = []) :
    (validateConversationBatch v).valid = true := by
  unfold validateConversationBatch
  rw [h]
  dsimp only []
  rw [if_pos (show ([] : List String).isEmpty = true from rfl)]
  cases hd : batchDeclaredCount v with
  | none => rfl
  | some c =>
    cases hx : batchConversations v with
    | none => rfl
    | some xs =>
      dsimp only []
      split <;> rfl

theorem validateFileContent_conv (f : String) (v : JVal)
    (h1 : (f == "manifest.json") = false) (h2 : isConversationFile f = true) :
    validateFileContent f v = validateConversationBatch v := by
  simp [validateFileContent, h1, h2]

theorem validateFileContent_thoughts (v : JVal) :
    validateFileContent "thoughts.json" v = validateThoughts v := by
  have h1 : (("thoughts.json" : String) == "manifest.json") = false := by decide
  have h2 : isConversationFile "thoughts.json" = false := by decide
  simp [validateFileContent, h1, h2]

theorem jsConvLength_of_ok (v : JVal) (h : conversationBatchErrors v = []) :
    ∃ k, jsConvLength v = some (some k) := by
  cases v with
  | jobj fs =>
    unfold conversationBatchErrors at h
    dsimp only [] at h
    simp only [List.append_eq_nil] at h
    cases hc : jGet (.jobj fs) "conversations" with
    | none =>
      rw [hc] at h
      simp at h
    | some w =>
      cases w with
      | jarr xs =>
        refine ⟨(xs.length : Int), ?_⟩
        unfold jsConvLength
        have he : ((fs.find? (fun p => p.1 == "conversations")).map (·.2)
            : Option JVal) = some (.jarr xs) := hc
        dsimp only []
        rw [he]
      | jnull => rw [hc] at h; simp at h
      | jbool b => rw [hc] at h; simp at h
      | jnum n => rw [hc] at h; simp at h
      | jstr s => rw [hc] at h; simp at h
      | jobj fs2 => rw [hc] at h; simp at h
  | jnull => simp [conversationBatchErrors] at h
  | jbool b => simp [conversationBatchErrors] at h
  | jnum n => simp [conversationBatchErrors] at h
  | jstr s => simp [conversationBatchErrors] at h
  | jarr xs => simp [conversationBatchErrors] at h

theorem crossFoldl_ne_none (files : List (String × JVal)) (l : List String)
    (h : ∀ f ∈ l, ∀ p ∈ files, p.1 = f → jsConvLength p.2 ≠ none) :
    ∀ a : Option Int, l.foldl (crossStep files) (some a) ≠ none := by
  induction l with
  | nil =>
    intro a
    simp
  | cons g l ih =>
    intro a
    simp only [List.foldl_cons]
    have hstep : ∃ a2, crossStep files (some a) g = some a2 := by
      cases hfind : ((files.find? (fun p => p.1 == g)).map (·.2) : Option JVal) with
      | none =>
        refine ⟨a, ?_⟩
        unfold crossStep
        dsimp only []
        rw [hfind]
      | some content =>
        rcases Option.map_eq_some'.mp hfind with ⟨p, hp, hp2⟩
        have hpmem : p ∈ files := List.mem_of_find?_eq_some hp
        have hpkey : p.1 = g := by
          have h0 := List.find?_some hp
          simpa using h0
        have hjs : jsConvLength content ≠ none := by
          rw [← hp2]
          exact h g (List.mem_cons_self g l) p hpmem hpkey
        cases hjl : jsConvLength content with
        | none => exact absurd hjl hjs
        | some o =>
          cases o with
          | none =>
            refine ⟨none, ?_⟩
            unfold crossStep
            dsimp only []
            rw [hfind]
            dsimp only []
            rw [hjl]
          | some k =>
            cases a with
            | none =>
              refine ⟨none, ?_⟩
              unfold crossStep
              dsimp only []
              rw [hfind]
              dsimp only []
              rw [hjl]
            | some t =>
              refine ⟨some (t + k), ?_⟩
              unfold crossStep
              dsimp only []
              rw [hfind]
              dsimp only []
              rw [hjl]
    rcases hstep with ⟨a2, ha2⟩
    rw [ha2]
    exact ih (fun f hf => h f (List.mem_cons_of_mem g hf)) a2

theorem mem_foldr_warnings (l : List (String × ValidationResult)) (w : String)
    (e : String × ValidationResult) (he : e ∈ l) (hw : w ∈ e.2.warnings) :
    w ∈ l.foldr (fun e acc => e.2.warnings ++ acc) [] := by
  induction l with
  | nil => cases he
  | cons a l ih =>
    simp only [List.foldr_cons, List.mem_append]
    rcases List.mem_cons.mp he with rfl | h2
    · exact Or.inl hw
    · exact Or.inr (ih h2)

theorem jIsNull_eq_false_of_truthy (v : JVal) (h : jTruthy v = true) :
    jIsNull v = false := by
  cases v <;> simp_all [jTruthy, jIsNull]

theorem jTruthy_of_batch_ok (v : JVal) (h : conversationBatchErrors v = []) :
    jTruthy v = true := by
  cases v with
  | jobj fs => rfl
  | jnull => simp [conversationBatchErrors] at h
  | jbool b => simp [conversationBatchErrors] at h
  | jnum n => simp [conversationBatchErrors] at h
  | jstr str => simp [conversationBatchErrors] at h
  | jarr xs => simp [conversationBatchErrors] at h

/-! ### C10: a listed file that exists but does not parse -/

/-- C10: when the manifest is schema-valid but a file it lists exists on
disk and fails to parse as JSON, the validating read skips it, so validate
reports that file in `missing_files` (forcing overall `valid` to `false`
through the presence layer), emits no error, and gives the file no
per-file validation entry: an unreadable file is indistinguishable from an
absent one at the validate interface. -/
theorem C10_unparsable_listed_file (d : Dir) (m : JVal) (cn : List String)
    (tn f : String) (r : DirectoryValidationResult)
    (hman : getFile d "manifest.json" = some (some m))
    (hcn : manifestConvNames m = some cn)
    (htn : manifestThoughtsName m = some tn)
    (hf : f ∈ cn ++ [tn])
    (hbad : getFile d f = some none)
    (hr : validateExperienceDirectoryFiles (some d) = some r) :
    f ∈ r.missing_files ∧ r.valid = false ∧ r.errors = []
      ∧ ∀ e ∈ r.file_validations, e.1 ≠ f := by
  unfold validateExperienceDirectoryFiles at hr
  dsimp only [] at hr
  rw [hman] at hr
  dsimp only [] at hr
  split at hr
  · rename_i hE
    rw [hcn, htn] at hr
    dsimp only [] at hr
    rcases validateExperienceDirectory_elim hr with
      ⟨cn2, tn2, crossWs, hcn2, htn2, hcw, hrec⟩
    rw [hcn] at hcn2
    rw [htn] at htn2
    obtain rfl : cn = cn2 := Option.some.inj hcn2
    obtain rfl : tn = tn2 := Option.some.inj htn2
    subst hrec
    have hkey : (collectExpectedFiles d (cn ++ [tn])).any (fun p => p.1 == f)
        = false := by
      cases hb : (collectExpectedFiles d (cn ++ [tn])).any (fun p => p.1 == f) with
      | false => rfl
      | true =>
        rcases List.any_eq_true.mp hb with ⟨p, hp, hpf⟩
        have hg := collect_entry_getFile d (cn ++ [tn]) p hp
        have hpf2 : p.1 = f := beq_iff_eq.mp hpf
        rw [hpf2, hbad] at hg
        simp at hg
    have hmem : f ∈ (cn ++ [tn]).filter
        (fun g => !((collectExpectedFiles d (cn ++ [tn])).any (fun p => p.1 == g))) := by
      refine List.mem_filter.mpr ⟨hf, ?_⟩
      rw [hkey]
      rfl
    refine ⟨hmem, ?_, ?_, ?_⟩
    · have hne : ((cn ++ [tn]).filter
          (fun g => !((collectExpectedFiles d (cn ++ [tn])).any (fun p => p.1 == g))))
          ≠ [] := by
        intro hnil
        rw [hnil] at hmem
        cases hmem
      have hie : ((cn ++ [tn]).filter
          (fun g => !((collectExpectedFiles d (cn ++ [tn])).any (fun p => p.1 == g)))).isEmpty
          = false := by
        cases hx : ((cn ++ [tn]).filter
            (fun g => !((collectExpectedFiles d (cn ++ [tn])).any (fun p => p.1 == g)))).isEmpty with
        | false => rfl
        | true => exact absurd (List.isEmpty_iff.mp hx) hne
      dsimp only []
      rw [hie]
      simp
    · show experienceMetadataErrors m = []
      exact List.isEmpty_iff.mp hE
    · intro e he
      dsimp only [] at he
      rcases List.mem_map.mp he with ⟨p, hp, rfl⟩
      intro hq
      dsimp only [] at hq
      have hg := collect_entry_getFile d (cn ++ [tn]) p hp
      rw [hq, hbad] at hg
      simp at hg
  · simp at hr

/-- A schema-valid manifest listing one batch file and a thoughts file. -/
def c10manifest : JVal :=
  .jobj [("mcp_version", .jstr "1.0.0"), ("ai_name", .jstr "A"),
         ("ai_context", .jstr "ctx"), ("experience_summary", .jstr "sum"),
         ("experience_flow", .jarr []),
         ("files", .jobj
           [("conversations", .jarr [.jstr "conversations_001.json"]),
            ("thoughts", .jstr "thoughts.json")]),
         ("main_topics", .jarr []),
         ("total_conversations", .jnum 1),
         ("session_id", .jstr "s10")]

/-- A session directory whose listed batch file exists but does not parse. -/
def c10dir : Dir :=
  [("manifest.json", some c10manifest),
   ("conversations_001.json", none),
   ("thoughts.json", some (.jobj []))]

/-- The validation report of `c10dir`. -/
def c10res : DirectoryValidationResult :=
  (validateExperienceDirectoryFiles (some c10dir)).getD
    ⟨false, false, false, [], [], [], []⟩

/-- C10 witness: on the concrete directory `c10dir` the unparsable listed
batch file lands in `missing_files`, `valid` is `false`, no error is
emitted and no per-file entry names the file. -/
theorem C10_unparsable_listed_file_witness :
    "conversations_001.json" ∈ c10res.missing_files ∧ c10res.valid = false
      ∧ c10res.errors = []
      ∧ ∀ e ∈ c10res.file_validations, e.1 ≠ "conversations_001.json" :=
  C10_unparsable_listed_file c10dir c10manifest ["conversations_001.json"]
    "thoughts.json" "conversations_001.json" c10res rfl rfl rfl (by decide) rfl rfl

/-! ### C5: which layers drive the overall valid flag -/

/-- C5 (amended): the overall `valid` flag is `false` exactly when the
manifest fails its schema check, a file the manifest lists is missing
from the supplied map, or any supplied file fails the filename-dispatched
content validation (which rejects files the manifest does not know with
an unknown-file-type error); the report's `errors` are exactly the
manifest schema errors, every per-file warning (in particular the
declared-versus-actual count mismatch of a batch) is emitted among the
report's `warnings`, never among its errors, and under a schema-valid
manifest a cross-file total that disagrees with the declared total is
also emitted among the warnings, naming the discrepancy. -/
theorem C5_valid_iff_layers (m : JVal) (files : List (String × JVal))
    (r : DirectoryValidationResult)
    (h : validateExperienceDirectory m files = some r) :
    (r.valid = false ↔
      ((validateExperienceMetadata m).valid = false
        ∨ r.missing_files ≠ []
        ∨ ∃ p ∈ files, (validateFileContent p.1 p.2).valid = false))
    ∧ r.errors = (validateExperienceMetadata m).errors
    ∧ (∀ p ∈ files, ∀ w ∈ (validateFileContent p.1 p.2).warnings, w ∈ r.warnings)
    ∧ (∀ cn, manifestConvNames m = some cn →
        (validateExperienceMetadata m).valid = true →
        ∀ t declared, crossFileTotal cn files = some t →
          manifestTotal m = some declared →
          t = some declared ∨ crossMismatchMsg declared t ∈ r.warnings) := by
  rcases validateExperienceDirectory_elim h with ⟨cn, tn, crossWs, hcn, htn, hcw, hrec⟩
  subst hrec
  refine ⟨?_, rfl, ?_, ?_⟩
  · have hB : ∀ (l : List String), l.isEmpty = false ↔ l ≠ [] := by
      intro l
      cases l <;> simp
    have hC : ((files.map (fun p => (p.1, validateFileContent p.1 p.2))).all
        (fun e => e.2.valid) = false)
        ↔ ∃ p ∈ files, (validateFileContent p.1 p.2).valid = false := by
      rw [List.all_eq_false]
      constructor
      · rintro ⟨e, he, hv⟩
        rcases List.mem_map.mp he with ⟨p, hp, rfl⟩
        exact ⟨p, hp, by simpa using hv⟩
      · rintro ⟨p, hp, hv⟩
        exact ⟨(p.1, validateFileContent p.1 p.2),
          List.mem_map.mpr ⟨p, hp, rfl⟩, by simp [hv]⟩
    have hkey : ∀ (a b c : Bool),
        ((a && b && c) = false ↔ (a = false ∨ b = false ∨ c = false)) := by
      decide
    dsimp only []
    rw [hkey]
    constructor
    · rintro (h1 | h2 | h3)
      · exact Or.inl h1
      · exact Or.inr (Or.inl ((hB _).mp h2))
      · exact Or.inr (Or.inr (hC.mp h3))
    · rintro (h1 | h2 | h3)
      · exact Or.inl h1
      · exact Or.inr (Or.inl ((hB _).mpr h2))
      · exact Or.inr (Or.inr (hC.mpr h3))
  · intro p hp w hw
    dsimp only []
    have hx : w ∈ (files.map (fun p => (p.1, validateFileContent p.1 p.2))).foldr
        (fun e acc => e.2.warnings ++ acc) [] :=
      mem_foldr_warnings _ w (p.1, validateFileContent p.1 p.2)
        (List.mem_map.mpr ⟨p, hp, rfl⟩) hw
    simp only [List.mem_append]
    exact Or.inl (Or.inr hx)
  · intro cn1 hcn1 hval t declared hct htot
    rw [hcn] at hcn1
    obtain rfl : cn = cn1 := Option.some.inj hcn1
    rw [if_pos hval] at hcw
    cases t with
    | some k =>
      by_cases hk : k = declared
      · left
        rw [hk]
      · right
        have hcw3 : crossFileWarnings m cn files
            = some [crossMismatchMsg declared (some k)] := by
          unfold crossFileWarnings
          simp only [hct, htot]
          rw [if_neg hk]
        have hcw2 : [crossMismatchMsg declared (some k)] = crossWs :=
          Option.some.inj (hcw3.symm.trans hcw)
        dsimp only []
        simp only [List.mem_append]
        refine Or.inr ?_
        rw [← hcw2]
        simp
    | none =>
      right
      have hcw3 : crossFileWarnings m cn files
          = some [crossMismatchMsg declared none] := by
        unfold crossFileWarnings
        simp only [hct, htot]
      have hcw2 : [crossMismatchMsg declared none] = crossWs :=
        Option.some.inj (hcw3.symm.trans hcw)
      dsimp only []
      simp only [List.mem_append]
      refine Or.inr ?_
      rw [← hcw2]
      simp

/-- A schema-valid manifest listing one batch file and a thoughts file. -/
def c5manifest : JVal :=
  .jobj [("mcp_version", .jstr "1.0.0"), ("ai_name", .jstr "A"),
         ("ai_context", .jstr "ctx"), ("experience_summary", .jstr "sum"),
         ("experience_flow", .jarr []),
         ("files", .jobj
           [("conversations", .jarr [.jstr "conversations_001.json"]),
            ("thoughts", .jstr "thoughts.json")]),
         ("main_topics", .jarr []),
         ("total_conversations", .jnum 1),
         ("session_id", .jstr "s5")]

/-- A well-formed one-record batch. -/
def c5batch : JVal := mkConversationBatchJson 1 [⟨"t", "q", "a", none⟩]

/-- A supplied file map holding every listed file in valid form plus one
file the manifest does not mention. -/
def c5files : List (String × JVal) :=
  [("conversations_001.json", c5batch),
   ("thoughts.json", .jobj [("content", .jstr "n")]),
   ("extra.txt", .jstr "x")]

/-- C5 counterexample: the manifest passes its schema check, nothing the
manifest lists is missing, every listed file validates cleanly — yet the
overall `valid` flag is `false`, because the extra supplied file
`extra.txt` fails the filename dispatch with an unknown-file-type error;
the claimed equivalence with the schema and presence layers alone is
refuted. -/
theorem C5_counterexample :
    (validateExperienceDirectory c5manifest c5files).map (fun r => r.manifest_valid)
      = some true
    ∧ (validateExperienceDirectory c5manifest c5files).map (fun r => r.missing_files)
      = some []
    ∧ (validateFileContent "conversations_001.json" c5batch).valid = true
    ∧ (validateFileContent "thoughts.json" (.jobj [("content", .jstr "n")])).valid = true
    ∧ (validateExperienceDirectory c5manifest c5files).map (fun r => r.valid)
      = some false :=
  ⟨rfl, rfl, rfl, rfl, rfl⟩

/-- The validation report of `c5manifest` against `c5files`. -/
def c5res : DirectoryValidationResult :=
  (validateExperienceDirectory c5manifest c5files).getD
    ⟨false, false, false, [], [], [], []⟩

/-- C5 witness: the amended equivalence evaluated on the concrete manifest
and file map. -/
theorem C5_valid_iff_layers_witness :
    (c5res.valid = false ↔
      ((validateExperienceMetadata c5manifest).valid = false
        ∨ c5res.missing_files ≠ []
        ∨ ∃ p ∈ c5files, (validateFileContent p.1 p.2).valid = false))
    ∧ c5res.errors = (validateExperienceMetadata c5manifest).errors
    ∧ (∀ p ∈ c5files, ∀ w ∈ (validateFileContent p.1 p.2).warnings,
        w ∈ c5res.warnings)
    ∧ (∀ cn, manifestConvNames c5manifest = some cn →
        (validateExperienceMetadata c5manifest).valid = true →
        ∀ t declared, crossFileTotal cn c5files = some t →
          manifestTotal c5manifest = some declared →
          t = some declared ∨ crossMismatchMsg declared t ∈ c5res.warnings) :=
  C5_valid_iff_layers c5manifest c5files c5res rfl

/-! ### C3: round-trip from finalize into validate -/

set_option maxHeartbeats 1000000 in
/-- C3 (amended): the round trip holds only when a notes file is present.
Whenever finalize succeeds on a directory that contains a `thoughts.json`
parsing to a truthy value (the reading loop's `fileResult.data` guard
drops files parsing to `null`, `false`, `0` or the empty string) and
whose batch files all parse and pass the conversation schema, running
validate on the untampered result yields a report with `valid` `true`, no
errors and no missing files.  (Without a thoughts file the manifest
records the empty string as its notes entry and validate then reports
missing files — see the counterexample.) -/
theorem C3_round_trip_validate (id : String) (d : Dir) (st' : Option Dir)
    (hfin : exportExperienceFinalize id (some d) = (true, st'))
    (hth : ∃ tv, getFile d "thoughts.json" = some (some tv) ∧ jTruthy tv = true)
    (hbatch : ∀ f, isConversationFile f = true → ∀ c, getFile d f = some c →
        ∃ v, c = some v ∧ conversationBatchErrors v = []) :
    ∃ d1 r, st' = some d1
      ∧ validateExperienceDirectoryFiles (some d1) = some r
      ∧ r.valid = true ∧ r.errors = [] ∧ r.missing_files = [] := by
  rcases finalize_success_elim hfin with ⟨hv, hfd⟩
  rcases finalizeDir_success_elim hfd with ⟨s, s2, hsum, ho, hs2, hn, hE, rfl⟩
  rcases hth with ⟨tv, htv, htvt⟩
  set m := finalizeManifest id s s2 d with hm
  set d1 := removeFile (setFile d "manifest.json" (some m)) "summary.json" with hd1
  set files := collectExpectedFiles d1 (finalizeConversationFiles d ++ ["thoughts.json"])
    with hfdef
  have hthm : "thoughts.json" ∈ dirNames d := mem_dirNames_of_getFile d _ _ htv
  have hcont : (dirNames d).contains "thoughts.json" = true := List.elem_iff.mpr hthm
  have hcn : manifestConvNames m = some (finalizeConversationFiles d) := by
    rw [hm]
    exact manifestConvNames_finalizeManifest id s s2 d
  have htn : manifestThoughtsName m = some "thoughts.json" := by
    rw [hm, manifestThoughtsName_finalizeManifest, hcont]
    rfl
  have hman1 : getFile d1 "manifest.json" = some (some m) := by
    rw [hd1, getFile_removeFile_ne _ _ _ (by decide), getFile_setFile_self]
  have hstable : ∀ g, g ≠ "summary.json" → g ≠ "manifest.json" →
      getFile d1 g = getFile d g := by
    intro g h1 h2
    rw [hd1, getFile_removeFile_ne _ _ _ h1, getFile_setFile_ne _ _ _ _ h2]
  have hconvne : ∀ g, isConversationFile g = true →
      g ≠ "summary.json" ∧ g ≠ "manifest.json" := by
    intro g hg
    constructor
    · rintro rfl
      exact absurd hg (by decide)
    · rintro rfl
      exact absurd hg (by decide)
  have hcnmem : ∀ f ∈ finalizeConversationFiles d,
      f ∈ dirNames d ∧ isConversationFile f = true := by
    intro f hf
    have hf2 : f ∈ (dirNames d).filter isConversationFile := by
      rw [← (sortLex_perm ((dirNames d).filter isConversationFile)).mem_iff]
      exact hf
    exact ⟨(List.mem_filter.mp hf2).1, (List.mem_filter.mp hf2).2⟩
  have hcnget : ∀ f ∈ finalizeConversationFiles d,
      ∃ v, getFile d f = some (some v) ∧ conversationBatchErrors v = [] := by
    intro f hf
    rcases hcnmem f hf with ⟨hmem, hconv⟩
    rcases getFile_isSome_of_mem_dirNames d f hmem with ⟨c, hc⟩
    rcases hbatch f hconv c hc with ⟨v, rfl, hverr⟩
    exact ⟨v, hc, hverr⟩
  have hkeys : ∀ f ∈ finalizeConversationFiles d ++ ["thoughts.json"],
      files.any (fun p => p.1 == f) = true := by
    intro f hf
    rcases List.mem_append.mp hf with h1 | h2
    · rcases hcnget f h1 with ⟨v, hg, hverr⟩
      rcases hconvne f (hcnmem f h1).2 with ⟨hne1, hne2⟩
      have hg1 : getFile d1 f = some (some v) := by
        rw [hstable f hne1 hne2]
        exact hg
      exact collect_key_present d1 (finalizeConversationFiles d ++ ["thoughts.json"])
        f v hf hg1 (jTruthy_of_batch_ok v hverr)
    · have hf3 : f = "thoughts.json" := by simpa using h2
      subst hf3
      have hg1 : getFile d1 "thoughts.json" = some (some tv) := by
        rw [hstable _ (by decide) (by decide)]
        exact htv
      exact collect_key_present d1 (finalizeConversationFiles d ++ ["thoughts.json"])
        "thoughts.json" tv hf hg1 htvt
  have hmissing : (finalizeConversationFiles d ++ ["thoughts.json"]).filter
      (fun f => !(files.any (fun p => p.1 == f))) = [] := by
    rw [List.filter_eq_nil_iff]
    intro f hf
    simp [hkeys f hf]
  have hfilesOk : ∀ e ∈ files, (validateFileContent e.1 e.2).valid = true := by
    intro e he
    have hg := collect_entry_getFile d1
      (finalizeConversationFiles d ++ ["thoughts.json"]) e he
    have hk := collect_entry_key_mem d1
      (finalizeConversationFiles d ++ ["thoughts.json"]) e he
    rcases List.mem_append.mp hk with hk1 | hk2
    · have hconv := (hcnmem e.1 hk1).2
      rcases hconvne e.1 hconv with ⟨hne1, hne2⟩
      rw [hstable e.1 hne1 hne2] at hg
      rcases hbatch e.1 hconv (some e.2) hg with ⟨v, hveq, hverr⟩
      have hveq2 : e.2 = v := Option.some.inj hveq
      rw [validateFileContent_conv e.1 e.2 (beq_eq_false_iff_ne.mpr hne2) hconv, hveq2]
      exact validateConversationBatch_valid_of_ok v hverr
    · have hk3 : e.1 = "thoughts.json" := by simpa using hk2
      rw [hk3] at hg
      rw [hstable _ (by decide) (by decide), htv] at hg
      have hv2 : e.2 = tv := Option.some.inj (Option.some.inj hg.symm)
      rw [hk3, validateFileContent_thoughts, hv2,
        validateThoughts_of_not_null tv (jIsNull_eq_false_of_truthy tv htvt)]
  have hallOk : (files.map (fun p => (p.1, validateFileContent p.1 p.2))).all
      (fun e => e.2.valid) = true := by
    rw [List.all_eq_true]
    intro x hx
    rcases List.mem_map.mp hx with ⟨p, hp, rfl⟩
    exact hfilesOk p hp
  have hEb : (experienceMetadataErrors m).isEmpty = true := by
    rw [hE]
    rfl
  have hmv : (validateExperienceMetadata m).valid = true := by
    unfold validateExperienceMetadata
    dsimp only []
    exact hEb
  have hjs : ∀ f ∈ finalizeConversationFiles d, ∀ p ∈ files, p.1 = f →
      jsConvLength p.2 ≠ none := by
    intro f hf p hp hpf
    have hg := collect_entry_getFile d1
      (finalizeConversationFiles d ++ ["thoughts.json"]) p hp
    have hconv := (hcnmem f hf).2
    rcases hconvne f hconv with ⟨hne1, hne2⟩
    rw [hpf, hstable f hne1 hne2] at hg
    rcases hbatch f hconv (some p.2) hg with ⟨v, hveq, hverr⟩
    have hveq2 : p.2 = v := Option.some.inj hveq
    rcases jsConvLength_of_ok v hverr with ⟨k, hk⟩
    rw [hveq2, hk]
    simp
  have hct : ∃ t, crossFileTotal (finalizeConversationFiles d) files = some t := by
    cases hx : crossFileTotal (finalizeConversationFiles d) files with
    | some t => exact ⟨t, rfl⟩
    | none =>
      have hnn := crossFoldl_ne_none files (finalizeConversationFiles d) hjs (some 0)
      exact absurd hx hnn
  rcases hct with ⟨t, hctv⟩
  have htot : manifestTotal m = some ((finalizeTotal d : Nat) : Int) := by
    rw [hm]
    exact manifestTotal_finalizeManifest id s s2 d
  have hcw : ∃ ws, crossFileWarnings m (finalizeConversationFiles d) files
      = some ws := by
    unfold crossFileWarnings
    rw [hctv]
    dsimp only []
    rw [htot]
    exact ⟨_, rfl⟩
  rcases hcw with ⟨ws, hcwv⟩
  have hif : (if (validateExperienceMetadata m).valid
      then crossFileWarnings m (finalizeConversationFiles d) files else some [])
      = some ws := by
    rw [if_pos hmv]
    exact hcwv
  have hved : validateExperienceDirectory m files = some
      ⟨(validateExperienceMetadata m).valid
          && ((finalizeConversationFiles d ++ ["thoughts.json"]).filter
              (fun f => !(files.any (fun p => p.1 == f)))).isEmpty
          && (files.map (fun p => (p.1, validateFileContent p.1 p.2))).all
              (fun e => e.2.valid),
        (validateExperienceMetadata m).valid,
        (files.map (fun p => (p.1, validateFileContent p.1 p.2))).all
          (fun e => e.2.valid),
        files.map (fun p => (p.1, validateFileContent p.1 p.2)),
        (finalizeConversationFiles d ++ ["thoughts.json"]).filter
          (fun f => !(files.any (fun p => p.1 == f))),
        (validateExperienceMetadata m).errors,
        (validateExperienceMetadata m).warnings
          ++ (files.map (fun p => (p.1, validateFileContent p.1 p.2))).foldr
              (fun e acc => e.2.warnings ++ acc) []
          ++ ws⟩ := by
    unfold validateExperienceDirectory
    rw [hcn, htn]
    dsimp only []
    rw [hif]
  have hie : ((finalizeConversationFiles d ++ ["thoughts.json"]).filter
      (fun f => !(files.any (fun p => p.1 == f)))).isEmpty = true := by
    rw [hmissing]
    rfl
  have hpipe : validateExperienceDirectoryFiles (some d1)
      = validateExperienceDirectory m files := by
    unfold validateExperienceDirectoryFiles
    dsimp only []
    rw [hman1]
    dsimp only []
    rw [if_pos hEb, hcn, htn]
  refine ⟨d1, _, rfl, hpipe.trans hved, ?_, ?_, ?_⟩
  · dsimp only []
    rw [hmv, hie, hallOk]
    rfl
  · dsimp only []
    unfold validateExperienceMetadata
    dsimp only []
    exact hE
  · dsimp only []
    exact hmissing

/-- A session directory as left by init and one batch write, with no
thoughts file. -/
def c3dir : Dir :=
  [("summary.json", some (.jobj
      [("summary", summaryJson ⟨"A", "ctx", "sum", [], []⟩),
       ("metadata", .jobj []), ("session_id", .jstr "s3"),
       ("created_at", .jstr "2024-01-01T00:00:00Z")])),
   (batchFilename 1, some (mkConversationBatchJson 1 [⟨"t", "q", "a", none⟩]))]

/-- C3 counterexample: finalize succeeds on a session with no thoughts
file, but validate on the untampered result is not clean: the manifest's
empty-string thoughts entry is treated as an expected file, so the report
has `valid` `false` and missing-file list `[""]` — refuting the claimed
round trip for sessions without a notes file. -/
theorem C3_counterexample :
    (exportExperienceFinalize "s3" (some c3dir)).1 = true
    ∧ (validateExperienceDirectoryFiles
        (exportExperienceFinalize "s3" (some c3dir)).2).map (fun r => r.valid)
      = some false
    ∧ (validateExperienceDirectoryFiles
        (exportExperienceFinalize "s3" (some c3dir)).2).map (fun r => r.missing_files)
      = some [""] :=
  ⟨rfl, rfl, rfl⟩

/-- The same session with a thoughts file written before finalize. -/
def c3tdir : Dir :=
  [("summary.json", some (.jobj
      [("summary", summaryJson ⟨"A", "ctx", "sum", [], []⟩),
       ("metadata", .jobj []), ("session_id", .jstr "s3"),
       ("created_at", .jstr "2024-01-01T00:00:00Z")])),
   (batchFilename 1, some (mkConversationBatchJson 1 [⟨"t", "q", "a", none⟩])),
   ("thoughts.json", some (.jobj [("note", .jstr "n")]))]

/-- C3 witness: the amended round trip on the concrete session that holds
a thoughts file and one well-formed batch. -/
theorem C3_round_trip_validate_witness :
    ∃ d1 r, (exportExperienceFinalize "s3" (some c3tdir)).2 = some d1
      ∧ validateExperienceDirectoryFiles (some d1) = some r
      ∧ r.valid = true ∧ r.errors = [] ∧ r.missing_files = [] :=
  C3_round_trip_validate "s3" c3tdir
    ((exportExperienceFinalize "s3" (some c3tdir)).2) rfl
    ⟨.jobj [("note", .jstr "n")], rfl, rfl⟩
    (by
      intro f hconv c hc
      have hmem : f ∈ dirNames c3tdir := mem_dirNames_of_getFile c3tdir f c hc
      have hnames : dirNames c3tdir
          = ["summary.json", "conversations_001.json", "thoughts.json"] := rfl
      rw [hnames] at hmem
      simp only [List.mem_cons, List.not_mem_nil, or_false] at hmem
      rcases hmem with rfl | rfl | rfl
      · exact absurd hconv (by decide)
      · have hcv : getFile c3tdir "conversations_001.json"
            = some (some (mkConversationBatchJson 1 [⟨"t", "q", "a", none⟩])) := rfl
        rw [hcv] at hc
        have hc2 : c = some (mkConversationBatchJson 1 [⟨"t", "q", "a", none⟩]) :=
          (Option.some.inj hc).symm
        exact ⟨mkConversationBatchJson 1 [⟨"t", "q", "a", none⟩], hc2, rfl⟩
      · exact absurd hconv (by decide))
